import Mathlib

/-!
# nc-broker: the race-connect mechanism of `main.go`

The program dials every candidate host concurrently (`Runner.connect` starting one
`Runner.connectRoutine` goroutine per host), lets the first successful dial win an atomic
compare-and-swap on `Runner.connected`, relays standard input/output over the winning
connection and closes it when the context is cancelled (`Runner.Run`).

The embedding is a small-step interleaving semantics.  Every goroutine has a program
counter that names the source line it is about to execute; a scheduler action picks the
thread that moves next.  The network (dial outcomes, the result of `Close`) is an
explicit environment.  Every effect is appended to an event log, newest event first.
-/

namespace NcBroker

/-! ## Data model -/

/-- Go `error` values.  `connectFailed` is the sentinel `ErrConnectFailed` (line 29);
`leaf` is any other error without an `Unwrap` method (for instance a dial or close
error of package `net`); `wrap` is an error whose `Unwrap` method returns `inner`. -/
inductive GoError where
  | connectFailed : GoError
  | leaf (code : Nat) : GoError
  | wrap (code : Nat) (inner : GoError) : GoError
  deriving DecidableEq, Repr

/-- Sentinel of line 29: `var ErrConnectFailed = errors.New("failed to connect to host(s)")`. -/
def ErrConnectFailed : GoError := GoError.connectFailed

/-- A `net.Conn` obtained from `DialContext`: `id` is the index of the attempt that
dialled it (every successful dial creates a distinct socket), `addr` the address that
was handed to the dialer. -/
structure Conn where
  id : Nat
  addr : String
  deriving DecidableEq, Repr

/-- The struct of lines 24-27; `none` stands for Go `nil`. -/
structure ConnectResult where
  Conn : Option Conn
  Error : Option GoError
  deriving DecidableEq, Repr

/-- Go standard library `net.JoinHostPort`: a host containing a colon is taken to be a
literal IPv6 address and is bracketed. -/
def JoinHostPort (host port : String) : String :=
  if host.data.contains ':' then "[" ++ host ++ "]:" ++ port else host ++ ":" ++ port

/-- The endpoints handed to `pipe` (lines 97-98). -/
inductive Stream where
  | stdin : Stream
  | stdout : Stream
  | conn (c : Conn) : Stream
  deriving DecidableEq, Repr

/-- Who performs a `conn.Close()`: the attempt with index `i` (line 101) or `Run` (line 67). -/
inductive Closer where
  | routine (i : Nat) : Closer
  | run : Closer
  deriving DecidableEq, Repr

/-- Observable effects, one per executed statement that has an effect outside the
goroutine's own frame. -/
inductive Event where
  /-- Line 74: `go r.connectRoutine(ctx, ch, host, port)` for `hosts[i]`. -/
  | spawn (i : Nat) : Event
  /-- Line 92: `DialContext` of attempt `i` on `addr` returned; `ok` iff `err == nil`. -/
  | dial (i : Nat) (addr : String) (ok : Bool) : Event
  /-- Line 95: `r.connected.CompareAndSwap(false, true)` of attempt `i` returned `won`. -/
  | cas (i : Nat) (won : Bool) : Event
  /-- Line 96: attempt `i` wrote `line` to standard error. -/
  | print (i : Nat) (line : String) : Event
  /-- Lines 97-98: `go pipe(dst, src)` executed by attempt `i`. -/
  | pipe (i : Nat) (dst src : Stream) : Event
  /-- Lines 101 and 67: `conn.Close()`. -/
  | connClose (who : Closer) (c : Conn) : Event
  /-- Lines 94, 99, 102: attempt `i` completed the send of `r` on `ch`. -/
  | send (i : Nat) (r : ConnectResult) : Event
  /-- A send on the closed channel (a run-time panic in Go). -/
  | sendPanic (i : Nat) : Event
  /-- Line 79: `connect` received `r` from `ch`. -/
  | recv (r : ConnectResult) : Event
  /-- Line 84: `close(ch)`. -/
  | chanClose : Event
  /-- Lines 85-88: `connect` returned `(conn, nil)` or `(nil, ErrConnectFailed)`. -/
  | connectRet (conn : Option Conn) (err : Option GoError) : Event
  /-- The context was cancelled (lines 40-43). -/
  | cancel : Event
  /-- Line 66: `<-ctx.Done()` returned. -/
  | ctxDone : Event
  /-- Lines 64 and 67: `Run` returned `err`. -/
  | runRet (err : Option GoError) : Event
  deriving DecidableEq, Repr

/-- Program counter of one `connectRoutine` goroutine (lines 91-104). -/
inductive RoutinePC where
  /-- The goroutine has not been created. -/
  | idle : RoutinePC
  /-- Created, `DialContext` (line 92) not yet returned. -/
  | start : RoutinePC
  /-- Line 94: about to send `ConnectResult{nil, err}`. -/
  | dialErr (e : GoError) : RoutinePC
  /-- Line 95: about to execute the compare-and-swap. -/
  | dialOk (c : Conn) : RoutinePC
  /-- Line 96: about to print. -/
  | wonPrint (c : Conn) : RoutinePC
  /-- Line 97: about to `go pipe(conn, os.Stdin)`. -/
  | wonPipeIn (c : Conn) : RoutinePC
  /-- Line 98: about to `go pipe(os.Stdout, conn)`. -/
  | wonPipeOut (c : Conn) : RoutinePC
  /-- Line 99: about to send `ConnectResult{conn, nil}`. -/
  | wonSend (c : Conn) : RoutinePC
  /-- Line 101: about to `conn.Close()`. -/
  | lostClose (c : Conn) : RoutinePC
  /-- Line 102: about to send `ConnectResult{}`. -/
  | lostSend : RoutinePC
  /-- Returned. -/
  | done : RoutinePC
  /-- Panicked on a send on the closed channel. -/
  | panicked : RoutinePC
  deriving DecidableEq, Repr

/-- Program counter of the goroutine that runs `Run` and, inside it, `connect`. -/
inductive MainPC where
  /-- Lines 73-76: `k` goroutines launched so far, `counter = k`. -/
  | spawn (k : Nat) : MainPC
  /-- Lines 78-83: `counter` results still to be received, `conn` the local variable. -/
  | recv (counter : Nat) (conn : Option Conn) : MainPC
  /-- Lines 85-88: the channel is closed, about to return. -/
  | chClosed (conn : Option Conn) : MainPC
  /-- Line 63: `connect` has returned `(conn, err)` to `Run`. -/
  | retConnect (conn : Option Conn) (err : Option GoError) : MainPC
  /-- Line 66: waiting on `ctx.Done()`. -/
  | waitDone (conn : Option Conn) : MainPC
  /-- Line 67: about to `conn.Close()`. -/
  | closing (conn : Option Conn) : MainPC
  /-- `Run` has returned `err`. -/
  | runRet (err : Option GoError) : MainPC
  /-- Method call on a nil interface value (not reachable). -/
  | nilDeref : MainPC
  deriving DecidableEq, Repr

/-- The surroundings of one call of `Run`: its arguments and what the network answers. -/
structure Env where
  port : String
  hosts : List String
  /-- Outcome of the `DialContext` call of attempt `i`: `none` is success. -/
  dialErr : Nat → Option GoError
  /-- What `Close` returns on `c` when `Run` calls it (line 67). -/
  closeErr : Conn → Option GoError

/-- The whole program state. -/
structure State where
  /-- The field `Runner.connected` (line 21). -/
  connected : Bool
  /-- The buffer of `ch`, a channel of capacity 1 (line 71). -/
  buf : Option ConnectResult
  /-- Whether `close(ch)` has been executed. -/
  chClosed : Bool
  /-- Whether `ctx.Done()` is closed. -/
  cancelled : Bool
  mainPc : MainPC
  routines : Nat → RoutinePC
  /-- Newest event first. -/
  log : List Event

/-- Scheduler choices. -/
inductive Action where
  | main : Action
  | routine (i : Nat) : Action
  | cancel : Action
  deriving DecidableEq, Repr

/-! ## Operations -/

/-- The `host` argument of attempt `i`. -/
def hostAt (env : Env) (i : Nat) : String := env.hosts.getD i ""

/-- The address attempt `i` dials (line 92). -/
def addrOf (env : Env) (i : Nat) : String := JoinHostPort (hostAt env i) env.port

/-- The connection attempt `i` obtains when its dial succeeds. -/
def connOf (env : Env) (i : Nat) : Conn := ⟨i, addrOf env i⟩

/-- State at the call `r.Run(ctx, port, hosts...)` on a Runner whose flag is `flag`. -/
def init (flag : Bool) : State :=
  { connected := flag, buf := none, chClosed := false, cancelled := false,
    mainPc := MainPC.spawn 0, routines := fun _ => RoutinePC.idle, log := [] }

/-- Move attempt `i` to `pc` and record `e`. -/
def advance (s : State) (i : Nat) (pc : RoutinePC) (e : Event) : State :=
  { s with routines := Function.update s.routines i pc, log := e :: s.log }

/-- The statement `ch <- r` executed by attempt `i`, after which the attempt returns:
it panics on a closed channel, blocks while the buffer is full, and otherwise fills the
buffer. -/
def sendResult (s : State) (i : Nat) (r : ConnectResult) : Option State :=
  if s.chClosed then some (advance s i RoutinePC.panicked (Event.sendPanic i))
  else
    match s.buf with
    | some _ => none
    | none => some { advance s i RoutinePC.done (Event.send i r) with buf := some r }

/-- One step of `connectRoutine` for attempt `i` (lines 91-104). -/
def stepRoutine (env : Env) (s : State) (i : Nat) : Option State :=
  match s.routines i with
  | RoutinePC.idle => none
  | RoutinePC.start =>
    match env.dialErr i with
    | some e => some (advance s i (RoutinePC.dialErr e) (Event.dial i (addrOf env i) false))
    | none => some (advance s i (RoutinePC.dialOk (connOf env i)) (Event.dial i (addrOf env i) true))
  | RoutinePC.dialErr e => sendResult s i ⟨none, some e⟩
  | RoutinePC.dialOk c =>
    if s.connected then some (advance s i (RoutinePC.lostClose c) (Event.cas i false))
    else some { advance s i (RoutinePC.wonPrint c) (Event.cas i true) with connected := true }
  | RoutinePC.wonPrint c =>
    some (advance s i (RoutinePC.wonPipeIn c)
      (Event.print i ("Connected to " ++ hostAt env i ++ "\n")))
  | RoutinePC.wonPipeIn c =>
    some (advance s i (RoutinePC.wonPipeOut c) (Event.pipe i (Stream.conn c) Stream.stdin))
  | RoutinePC.wonPipeOut c =>
    some (advance s i (RoutinePC.wonSend c) (Event.pipe i Stream.stdout (Stream.conn c)))
  | RoutinePC.wonSend c => sendResult s i ⟨some c, none⟩
  | RoutinePC.lostClose c =>
    some (advance s i RoutinePC.lostSend (Event.connClose (Closer.routine i) c))
  | RoutinePC.lostSend => sendResult s i ⟨none, none⟩
  | RoutinePC.done => none
  | RoutinePC.panicked => none

/-- One step of the goroutine running `Run` (lines 61-68) and `connect` (lines 70-89). -/
def stepMain (env : Env) (s : State) : Option State :=
  match s.mainPc with
  | MainPC.spawn k =>
    if k < env.hosts.length then
      some { s with mainPc := MainPC.spawn (k + 1),
                    routines := Function.update s.routines k RoutinePC.start,
                    log := Event.spawn k :: s.log }
    else some { s with mainPc := MainPC.recv k none }
  | MainPC.recv 0 conn =>
    some { s with chClosed := true, mainPc := MainPC.chClosed conn,
                  log := Event.chanClose :: s.log }
  | MainPC.recv (counter + 1) conn =>
    match s.buf with
    | none => none
    | some res =>
      some { s with buf := none,
                    mainPc := MainPC.recv counter (if res.Conn ≠ none then res.Conn else conn),
                    log := Event.recv res :: s.log }
  | MainPC.chClosed conn =>
    if conn ≠ none then
      some { s with mainPc := MainPC.retConnect conn none,
                    log := Event.connectRet conn none :: s.log }
    else
      some { s with mainPc := MainPC.retConnect none (some ErrConnectFailed),
                    log := Event.connectRet none (some ErrConnectFailed) :: s.log }
  | MainPC.retConnect conn err =>
    match err with
    | some e => some { s with mainPc := MainPC.runRet (some e),
                              log := Event.runRet (some e) :: s.log }
    | none => some { s with mainPc := MainPC.waitDone conn }
  | MainPC.waitDone conn =>
    if s.cancelled then
      some { s with mainPc := MainPC.closing conn, log := Event.ctxDone :: s.log }
    else none
  | MainPC.closing conn =>
    match conn with
    | none => some { s with mainPc := MainPC.nilDeref }
    | some c =>
      some { s with mainPc := MainPC.runRet (env.closeErr c),
                    log := Event.runRet (env.closeErr c) :: Event.connClose Closer.run c :: s.log }
  | MainPC.runRet _ => none
  | MainPC.nilDeref => none

/-- The cancellation of the context; it takes effect once. -/
def stepCancel (s : State) : Option State :=
  if s.cancelled then none else some { s with cancelled := true, log := Event.cancel :: s.log }

/-- One scheduler step; `none` when the chosen thread cannot move. -/
def step (env : Env) (s : State) : Action → Option State
  | Action.main => stepMain env s
  | Action.routine i => stepRoutine env s i
  | Action.cancel => stepCancel s

/-- Run a schedule; a choice that cannot move leaves the state as it is. -/
def exec (env : Env) (s : State) : List Action → State
  | [] => s
  | a :: rest => exec env ((step env s a).getD s) rest

/-! ## The function `main` -/

/-- How the process ends. -/
inductive Exit where
  /-- The function `main` returns: exit status 0. -/
  | returned : Exit
  /-- The call `os.Exit(code)`. -/
  | exit (code : Nat) : Exit
  /-- The call `panic(err)` of line 55. -/
  | panicked (err : GoError) : Exit
  /-- The run-time panic of `os.Args[0]` on an empty argument vector. -/
  | indexPanic : Exit
  deriving DecidableEq, Repr

/-- What `main` itself writes to standard error, and how it ends. -/
structure MainOutcome where
  stderr : List String
  exit : Exit
  deriving DecidableEq, Repr

/-- Go standard library `errors.Is(err, target)` for non-nil arguments: walk the
`Unwrap` chain of `err` and compare every link with `target`.  (A custom `Is` method is
consulted on the links of `err` only; the program passes the sentinel as `err`, which has
none.) -/
def errorsIs : GoError → GoError → Bool
  | GoError.wrap code inner, target =>
    decide (GoError.wrap code inner = target) || errorsIs inner target
  | err, target => decide (err = target)

/-- Lines 51-58: what `main` does with the value `Run` returned. -/
def mainAfterRun (runErr : Option GoError) : MainOutcome :=
  match runErr with
  | none => ⟨[], Exit.returned⟩
  | some err =>
    if errorsIs ErrConnectFailed err then ⟨["Host(s) unavailable\n"], Exit.exit 1⟩
    else ⟨[], Exit.panicked err⟩

/-- The function `main` (lines 31-59) on the argument vector `args`; `run port hosts` is
the value the call of `Run` returns. -/
def main (args : List String) (run : String → List String → Option GoError) : MainOutcome :=
  if args.length < 3 then
    match args with
    | [] => ⟨[], Exit.indexPanic⟩
    | prog :: _ => ⟨["Usage: " ++ prog ++ " <port> <host> [alt-hosts]\n"], Exit.exit 1⟩
  else mainAfterRun (run (args.getD 1 "") (args.drop 2))

/-! ## Observations on the event log -/

/-- Whether `e` is an effect of attempt `i`. -/
def Event.byRoutine (i : Nat) : Event → Bool
  | Event.dial j _ _ => decide (j = i)
  | Event.cas j _ => decide (j = i)
  | Event.print j _ => decide (j = i)
  | Event.pipe j _ _ => decide (j = i)
  | Event.connClose (Closer.routine j) _ => decide (j = i)
  | Event.send j _ => decide (j = i)
  | Event.sendPanic j => decide (j = i)
  | _ => false

/-- The effects of attempt `i`, newest first. -/
def traceOf (i : Nat) (log : List Event) : List Event := log.filter (Event.byRoutine i)

/-- The result carried by a completed send. -/
def Event.sent : Event → Option ConnectResult
  | Event.send _ r => some r
  | _ => none

/-- The result carried by a receive. -/
def Event.received : Event → Option ConnectResult
  | Event.recv r => some r
  | _ => none

/-- Results sent on `ch`, newest first. -/
def sentResults (log : List Event) : List ConnectResult := log.filterMap Event.sent

/-- Results received from `ch`, newest first. -/
def recvResults (log : List Event) : List ConnectResult := log.filterMap Event.received

/-- Whether `e` starts a copy loop. -/
def Event.isPipe : Event → Bool
  | Event.pipe _ _ _ => true
  | _ => false

/-- Whether `e` is a compare-and-swap that succeeded. -/
def Event.isCasWin : Event → Bool
  | Event.cas _ won => won
  | _ => false

/-- Whether `e` closes a connection. -/
def Event.isConnClose : Event → Bool
  | Event.connClose _ _ => true
  | _ => false

/-- Whether `e` closes the connection `c`. -/
def Event.closes (c : Conn) : Event → Bool
  | Event.connClose _ d => decide (d = c)
  | _ => false

/-- Whether `e` is an effect of `Run` after `connect` has closed the channel. -/
def Event.isRun : Event → Bool
  | Event.connectRet _ _ => true
  | Event.ctxDone => true
  | Event.connClose Closer.run _ => true
  | Event.runRet _ => true
  | _ => false

/-- Whether `e` is an effect of the goroutine running `Run`, or the cancellation. -/
def Event.isMainEv : Event → Bool
  | Event.spawn _ => true
  | Event.recv _ => true
  | Event.chanClose => true
  | Event.connectRet _ _ => true
  | Event.ctxDone => true
  | Event.connClose Closer.run _ => true
  | Event.runRet _ => true
  | Event.cancel => true
  | _ => false

/-- The effects of `Run` after the receive loop, newest first. -/
def runTrace (log : List Event) : List Event := log.filter Event.isRun

/-- The value of the variable `conn` of `connect` after receiving `rs` (newest first):
the latest received non-nil `Conn`. -/
def lastConn : List ConnectResult → Option Conn
  | [] => none
  | r :: rs => if r.Conn ≠ none then r.Conn else lastConn rs

/-- What `connect` returns for a final value of its variable `conn` (lines 85-88). -/
def connectResult (conn : Option Conn) : Option Conn × Option GoError :=
  if conn ≠ none then (conn, none) else (none, some ErrConnectFailed)

/-- The effects of an attempt whose dial failed, up to its send. -/
def failTrace (env : Env) (i : Nat) : List Event :=
  [Event.dial i (addrOf env i) false]

/-- The effects of an attempt that won the compare-and-swap, up to its send. -/
def wonTrace (env : Env) (i : Nat) : List Event :=
  [Event.pipe i Stream.stdout (Stream.conn (connOf env i)),
   Event.pipe i (Stream.conn (connOf env i)) Stream.stdin,
   Event.print i ("Connected to " ++ hostAt env i ++ "\n"),
   Event.cas i true,
   Event.dial i (addrOf env i) true]

/-- The effects of an attempt that lost the compare-and-swap, up to its send. -/
def lostTrace (env : Env) (i : Nat) : List Event :=
  [Event.connClose (Closer.routine i) (connOf env i),
   Event.cas i false,
   Event.dial i (addrOf env i) true]

/-- Whether `connect` has returned to `Run`. -/
def connectReturned : MainPC → Bool
  | MainPC.spawn _ => false
  | MainPC.recv _ _ => false
  | MainPC.chClosed _ => false
  | _ => true

/-- Whether `Run` has returned. -/
def runReturned : MainPC → Bool
  | MainPC.runRet _ => true
  | _ => false

/-- Number of scheduler choices of `sched` that move a thread. -/
def moves (env : Env) (s : State) : List Action → Nat
  | [] => 0
  | a :: rest =>
    match step env s a with
    | some s' => moves env s' rest + 1
    | none => moves env s rest

/-- Statements attempt `i` may still execute. -/
def routineRank : RoutinePC → Nat
  | RoutinePC.idle => 6
  | RoutinePC.start => 6
  | RoutinePC.dialErr _ => 1
  | RoutinePC.dialOk _ => 5
  | RoutinePC.wonPrint _ => 4
  | RoutinePC.wonPipeIn _ => 3
  | RoutinePC.wonPipeOut _ => 2
  | RoutinePC.wonSend _ => 1
  | RoutinePC.lostClose _ => 2
  | RoutinePC.lostSend => 1
  | RoutinePC.done => 0
  | RoutinePC.panicked => 0

/-- Steps `Run` may still take, for `n` hosts. -/
def mainRank (n : Nat) : MainPC → Nat
  | MainPC.spawn k => 2 * n + 6 - k
  | MainPC.recv counter _ => 5 + counter
  | MainPC.chClosed _ => 4
  | MainPC.retConnect _ _ => 3
  | MainPC.waitDone _ => 2
  | MainPC.closing _ => 1
  | MainPC.runRet _ => 0
  | MainPC.nilDeref => 0

/-- An upper bound on the number of moves left in `s`. -/
def measure (env : Env) (s : State) : Nat :=
  mainRank env.hosts.length s.mainPc +
    ((List.range env.hosts.length).map (fun i => routineRank (s.routines i))).sum +
    (if s.cancelled then 0 else 1)

/-- The race cannot hang: no run from the call on a Runner whose flag is `flag` makes more
than `8 * len(hosts) + 7` moves, and in every reachable state in which `connect` has not
returned, `connect` itself or one of the attempts it launched can move. -/
def ConnectReturns (env : Env) (flag : Bool) : Prop :=
  ∀ sched : List Action,
    moves env (init flag) sched ≤ 8 * env.hosts.length + 7 ∧
    (connectReturned (exec env (init flag) sched).mainPc = false →
      (stepMain env (exec env (init flag) sched)).isSome = true ∨
        ∃ i, i < env.hosts.length ∧
          (stepRoutine env (exec env (init flag) sched) i).isSome = true)

/-- The property the specification states for a `ConnectResult`: exactly one of the two
fields is populated. -/
def ConnectResult.exactlyOnePopulated (r : ConnectResult) : Prop :=
  (r.Conn ≠ none ∧ r.Error = none) ∨ (r.Conn = none ∧ r.Error ≠ none)

/-! ## Concrete sessions -/

/-- Two hosts, both reachable. -/
def envBothUp : Env :=
  { port := "9999", hosts := ["10.0.0.1", "10.0.0.2"],
    dialErr := fun _ => none, closeErr := fun _ => none }

/-- Both dials succeed; attempt 1 reaches the guard first, attempt 0 is the straggler and
its result arrives first. -/
def schedBothUp : List Action :=
  [Action.main, Action.main, Action.main,
   Action.routine 0, Action.routine 1, Action.routine 1,
   Action.routine 0, Action.routine 0, Action.routine 0, Action.main,
   Action.routine 1, Action.routine 1, Action.routine 1, Action.routine 1, Action.main,
   Action.main, Action.main]

/-- Scenario 1 of the specification: only the second host has a listener. -/
def envOneUp : Env :=
  { port := "9999", hosts := ["10.255.255.1", "127.0.0.1"],
    dialErr := fun i => if i = 1 then none else some (GoError.leaf 110),
    closeErr := fun _ => none }

/-- The reachable host wins and reports first, the failed dial reports second; then
`connect` returns, the context is cancelled and `Run` closes the connection. -/
def schedOneUp : List Action :=
  [Action.main, Action.main, Action.main,
   Action.routine 1, Action.routine 1, Action.routine 1, Action.routine 1, Action.routine 1,
   Action.routine 1, Action.main,
   Action.routine 0, Action.routine 0, Action.main,
   Action.main, Action.main,
   Action.main, Action.cancel, Action.main, Action.main]

/-- No host is reachable. -/
def envNoneUp : Env :=
  { port := "9999", hosts := ["10.255.255.1", "10.255.255.2"],
    dialErr := fun i => some (GoError.leaf (110 + i)), closeErr := fun _ => none }

/-- Both dials fail and report; `connect` and `Run` return. -/
def schedNoneUp : List Action :=
  [Action.main, Action.main, Action.main,
   Action.routine 0, Action.routine 0, Action.main,
   Action.routine 1, Action.routine 1, Action.main,
   Action.main, Action.main, Action.main]

/-- Both dials succeed on a Runner whose flag is already set: both attempts lose the
compare-and-swap, close their connection and report the empty result. -/
def schedFlagSet : List Action :=
  [Action.main, Action.main, Action.main,
   Action.routine 0, Action.routine 0, Action.routine 0, Action.routine 0, Action.main,
   Action.routine 1, Action.routine 1, Action.routine 1, Action.routine 1, Action.main,
   Action.main, Action.main]

/-- One reachable host whose connection fails to close. -/
def envCloseFails : Env :=
  { port := "9999", hosts := ["127.0.0.1"],
    dialErr := fun _ => none, closeErr := fun _ => some (GoError.leaf 9) }

/-- The only attempt wins, `connect` returns, the context is cancelled and `Run` calls
`Close`. -/
def schedCloseFails : List Action :=
  [Action.main, Action.main,
   Action.routine 0, Action.routine 0, Action.routine 0, Action.routine 0, Action.routine 0,
   Action.routine 0, Action.main,
   Action.main, Action.main,
   Action.main, Action.cancel, Action.main, Action.main]

/-- The call of `Run` cannot hang except on the cancellation: no run makes more than
`8 * len(hosts) + 7` moves, and in every reachable state in which `Run` has not returned,
`Run` or one of the attempts can move, unless `Run` is waiting on `ctx.Done()` for a
cancellation that has not happened yet and that can still happen. -/
def RunReturns (env : Env) (flag : Bool) : Prop :=
  ∀ sched : List Action,
    moves env (init flag) sched ≤ 8 * env.hosts.length + 7 ∧
    (runReturned (exec env (init flag) sched).mainPc = false →
      (stepMain env (exec env (init flag) sched)).isSome = true ∨
        (∃ i, i < env.hosts.length ∧
          (stepRoutine env (exec env (init flag) sched) i).isSome = true) ∨
        ((∃ conn, (exec env (init flag) sched).mainPc = MainPC.waitDone conn) ∧
          (exec env (init flag) sched).cancelled = false ∧
          (stepCancel (exec env (init flag) sched)).isSome = true))

/-! ## Invariants -/

/-- The program counter of attempt `i` determines its effects so far (`tr`, newest first). -/
def RoutineInv (env : Env) (i : Nat) (tr : List Event) : RoutinePC → Prop
  | RoutinePC.idle => tr = []
  | RoutinePC.start => tr = []
  | RoutinePC.dialErr e => env.dialErr i = some e ∧ tr = failTrace env i
  | RoutinePC.dialOk c => env.dialErr i = none ∧ c = connOf env i ∧ tr = (wonTrace env i).drop 4
  | RoutinePC.wonPrint c => env.dialErr i = none ∧ c = connOf env i ∧ tr = (wonTrace env i).drop 3
  | RoutinePC.wonPipeIn c => env.dialErr i = none ∧ c = connOf env i ∧ tr = (wonTrace env i).drop 2
  | RoutinePC.wonPipeOut c => env.dialErr i = none ∧ c = connOf env i ∧ tr = (wonTrace env i).drop 1
  | RoutinePC.wonSend c => env.dialErr i = none ∧ c = connOf env i ∧ tr = wonTrace env i
  | RoutinePC.lostClose c => env.dialErr i = none ∧ c = connOf env i ∧ tr = (lostTrace env i).drop 1
  | RoutinePC.lostSend => env.dialErr i = none ∧ tr = lostTrace env i
  | RoutinePC.done =>
    (∃ e, env.dialErr i = some e ∧ tr = Event.send i ⟨none, some e⟩ :: failTrace env i) ∨
    (env.dialErr i = none ∧ tr = Event.send i ⟨some (connOf env i), none⟩ :: wonTrace env i) ∨
    (env.dialErr i = none ∧ tr = Event.send i ⟨none, none⟩ :: lostTrace env i)
  | RoutinePC.panicked => False

/-- Number of goroutines `connect` has launched. -/
def launched (env : Env) : MainPC → Nat
  | MainPC.spawn k => k
  | _ => env.hosts.length

/-- Number of results `connect` has received. -/
def receivedCount (env : Env) : MainPC → Nat
  | MainPC.spawn _ => 0
  | MainPC.recv counter _ => env.hosts.length - counter
  | _ => env.hosts.length

/-- Whether `connect` is past `close(ch)`. -/
def pastClose : MainPC → Bool
  | MainPC.spawn _ => false
  | MainPC.recv _ _ => false
  | _ => true

/-- What the program counter of `Run` says about the variables of `connect` (`rs` are the
results received so far, newest first), about the context and about the effects of `Run`
after the receive loop (`tr`, newest first). -/
def MainInv (env : Env) (rs : List ConnectResult) (cancelled : Bool) (tr : List Event) :
    MainPC → Prop
  | MainPC.spawn k => k ≤ env.hosts.length ∧ tr = []
  | MainPC.recv counter conn => counter ≤ env.hosts.length ∧ conn = lastConn rs ∧ tr = []
  | MainPC.chClosed conn => conn = lastConn rs ∧ tr = []
  | MainPC.retConnect conn err =>
    (conn, err) = connectResult (lastConn rs) ∧ tr = [Event.connectRet conn err]
  | MainPC.waitDone conn =>
    (∃ c, conn = some c) ∧ conn = lastConn rs ∧ tr = [Event.connectRet conn none]
  | MainPC.closing conn =>
    (∃ c, conn = some c) ∧ conn = lastConn rs ∧ cancelled = true ∧
      tr = [Event.ctxDone, Event.connectRet conn none]
  | MainPC.runRet err =>
    (lastConn rs = none ∧ err = some ErrConnectFailed ∧
      tr = [Event.runRet err, Event.connectRet none (some ErrConnectFailed)]) ∨
    (∃ c, lastConn rs = some c ∧ err = env.closeErr c ∧ cancelled = true ∧
      tr = [Event.runRet err, Event.connClose Closer.run c, Event.ctxDone,
            Event.connectRet (some c) none])
  | MainPC.nilDeref => False

/-- The invariant of the interleaving semantics, for a Runner whose flag was `flag` at
the call. -/
structure Inv (env : Env) (flag : Bool) (s : State) : Prop where
  routine : ∀ i, RoutineInv env i (traceOf i s.log) (s.routines i)
  idle : ∀ i, s.routines i = RoutinePC.idle ↔ launched env s.mainPc ≤ i
  main : MainInv env (recvResults s.log) s.cancelled (runTrace s.log) s.mainPc
  received : (recvResults s.log).length = receivedCount env s.mainPc
  closed : s.chClosed = pastClose s.mainPc
  channel : sentResults s.log = s.buf.toList ++ recvResults s.log
  count : (sentResults s.log).length =
    (List.range env.hosts.length).countP (fun i => decide (s.routines i = RoutinePC.done))
  flagKept : flag = true → s.connected = true
  casSets : ∀ i b, Event.cas i b ∈ s.log → s.connected = true
  winFresh : ∀ i, Event.cas i true ∈ s.log → flag = false
  setBy : s.connected = true → flag = true ∨ ∃ i, Event.cas i true ∈ s.log
  winUnique : ∀ i j, Event.cas i true ∈ s.log → Event.cas j true ∈ s.log → i = j
  cancelLogged : s.cancelled = true ↔ Event.cancel ∈ s.log
  doneAfterCancel : ∀ post pre, s.log = post ++ Event.ctxDone :: pre → Event.cancel ∈ pre

/-- Facts about the order of events in the log. -/
structure Ordered (env : Env) (s : State) : Prop where
  spawnLt : ∀ i, Event.spawn i ∈ s.log → i < env.hosts.length
  closeLogged : Event.chanClose ∈ s.log → s.chClosed = true
  quietAfterClose : ∀ post pre, s.log = post ++ Event.chanClose :: pre →
    ∀ e ∈ post, Event.sent e = none ∧ Event.received e = none
  closeAfterCancel : ∀ post pre c, s.log = post ++ Event.connClose Closer.run c :: pre →
    Event.cancel ∈ pre

/-! ## Counting over the launched attempts -/

theorem countP_range_update_of_le (p : RoutinePC → Bool) (f : Nat → RoutinePC) (i n : Nat)
    (pc : RoutinePC) (h : n ≤ i) :
    (List.range n).countP (fun j => p (Function.update f i pc j)) =
      (List.range n).countP (fun j => p (f j)) := by
  apply List.countP_congr
  intro j hj
  have hj' : j < n := List.mem_range.mp hj
  have hne : j ≠ i := by omega
  simp [Function.update_noteq hne]

theorem countP_range_update_same (p : RoutinePC → Bool) (f : Nat → RoutinePC) (i n : Nat)
    (pc : RoutinePC) (h : p pc = p (f i)) :
    (List.range n).countP (fun j => p (Function.update f i pc j)) =
      (List.range n).countP (fun j => p (f j)) := by
  apply List.countP_congr
  intro j _
  by_cases hji : j = i
  · subst hji; simp [h]
  · simp [Function.update_noteq hji]

theorem countP_range_update_gain (p : RoutinePC → Bool) (f : Nat → RoutinePC) (i n : Nat)
    (pc : RoutinePC) (hi : i < n) (hold : p (f i) = false) (hnew : p pc = true) :
    (List.range n).countP (fun j => p (Function.update f i pc j)) =
      (List.range n).countP (fun j => p (f j)) + 1 := by
  induction n with
  | zero => omega
  | succ n ih =>
    rw [List.range_succ, List.countP_append, List.countP_append]
    by_cases hin : i < n
    · have hne : n ≠ i := by omega
      rw [ih hin, List.countP_singleton, List.countP_singleton, Function.update_noteq hne]
      omega
    · have hin' : i = n := by omega
      subst hin'
      rw [countP_range_update_of_le p f i i pc (Nat.le_refl i)]
      simp [hold, hnew]

theorem exists_not_of_countP_lt (p : RoutinePC → Bool) (f : Nat → RoutinePC) (n : Nat)
    (h : (List.range n).countP (fun j => p (f j)) < n) : ∃ i, i < n ∧ p (f i) = false := by
  by_contra hcon
  push_neg at hcon
  have : (List.range n).countP (fun j => p (f j)) = (List.range n).length := by
    rw [List.countP_eq_length]
    intro j hj
    have := hcon j (List.mem_range.mp hj)
    simpa using this
  simp at this
  omega

theorem all_of_countP_eq (p : RoutinePC → Bool) (f : Nat → RoutinePC) (n : Nat)
    (h : (List.range n).countP (fun j => p (f j)) = n) : ∀ i, i < n → p (f i) = true := by
  intro i hi
  have h' : (List.range n).countP (fun j => p (f j)) = (List.range n).length := by simpa using h
  rw [List.countP_eq_length] at h'
  exact h' i (List.mem_range.mpr hi)

theorem countP_range_le (p : RoutinePC → Bool) (f : Nat → RoutinePC) (n : Nat) :
    (List.range n).countP (fun j => p (f j)) ≤ n := by
  have := List.countP_le_length (fun j => p (f j)) (l := List.range n)
  simpa using this

/-! ## Consequences of the invariant -/


theorem inv_init (env : Env) (flag : Bool) : Inv env flag (init flag) := by
  constructor <;> simp [init, RoutineInv, traceOf, launched, MainInv, runTrace, recvResults,
    receivedCount, pastClose, sentResults]

theorem Inv.launched_le {env : Env} {flag : Bool} {s : State} (h : Inv env flag s) :
    launched env s.mainPc ≤ env.hosts.length := by
  have hm := h.main
  cases hpc : s.mainPc <;> simp [launched]
  rw [hpc] at hm
  exact hm.1

theorem Inv.live_lt {env : Env} {flag : Bool} {s : State} (h : Inv env flag s) (i : Nat)
    (hi : s.routines i ≠ RoutinePC.idle) : i < env.hosts.length := by
  have h1 := h.launched_le
  have h2 := (h.idle i).not.mp hi
  omega


theorem Inv.all_done {env : Env} {flag : Bool} {s : State} (h : Inv env flag s)
    (hc : s.chClosed = true) :
    s.buf = none ∧ ∀ i, i < env.hosts.length → s.routines i = RoutinePC.done := by
  have hrec : (recvResults s.log).length = env.hosts.length := by
    rw [h.received]
    have := h.closed
    rw [hc] at this
    cases hpc : s.mainPc <;> simp [hpc, pastClose, receivedCount] at this ⊢
  have hcnt := h.count
  have hle : (List.range env.hosts.length).countP
      (fun i => decide (s.routines i = RoutinePC.done)) ≤ env.hosts.length :=
    countP_range_le (fun pc => decide (pc = RoutinePC.done)) s.routines env.hosts.length
  have hch := congrArg List.length h.channel
  rw [List.length_append, hrec] at hch
  have hbuf : s.buf = none := by
    cases hb : s.buf with
    | none => rfl
    | some r => rw [hb] at hch; simp at hch; omega
  refine ⟨hbuf, ?_⟩
  rw [hbuf] at hch
  simp at hch
  have heq : (List.range env.hosts.length).countP
      (fun i => decide (s.routines i = RoutinePC.done)) = env.hosts.length := by omega
  have hall := all_of_countP_eq (fun pc => decide (pc = RoutinePC.done)) s.routines
    env.hosts.length heq
  intro i hi
  simpa using hall i hi

/-! ## Preservation of the invariant -/

theorem Inv.not_closed_of_pending {env : Env} {flag : Bool} {s : State} (h : Inv env flag s)
    (j : Nat) (h1 : s.routines j ≠ RoutinePC.idle) (h2 : s.routines j ≠ RoutinePC.done) :
    s.chClosed = false := by
  cases hc : s.chClosed with
  | false => rfl
  | true => exact absurd ((h.all_done hc).2 j (h.live_lt j h1)) h2

theorem traceOf_cons (i : Nat) (e : Event) (log : List Event) :
    traceOf i (e :: log) = if Event.byRoutine i e = true then e :: traceOf i log
      else traceOf i log := by
  unfold traceOf
  rw [List.filter_cons]

/-- What every step of attempt `j` leaves alone. -/
theorem stepRoutine_frame {env : Env} {flag : Bool} {s s' : State} {j : Nat}
    (hinv : Inv env flag s) (h : stepRoutine env s j = some s') :
    ∃ pc e, s'.routines = Function.update s.routines j pc ∧ s'.log = e :: s.log ∧
      Event.byRoutine j e = true ∧ s'.mainPc = s.mainPc ∧ s'.chClosed = s.chClosed ∧
      s'.cancelled = s.cancelled ∧ pc ≠ RoutinePC.idle ∧ s.routines j ≠ RoutinePC.idle ∧
      s.routines j ≠ RoutinePC.done ∧
      ((Event.sent e = none ∧ s'.buf = s.buf ∧ pc ≠ RoutinePC.done) ∨
        (∃ r, e = Event.send j r ∧ s.buf = none ∧ s'.buf = some r ∧ pc = RoutinePC.done)) ∧
      (((∀ b, e ≠ Event.cas j b) ∧ s'.connected = s.connected) ∨
        (∃ b, e = Event.cas j b ∧ s.connected = !b ∧ s'.connected = true)) := by
  have hclosed := hinv.not_closed_of_pending j
  unfold stepRoutine at h
  split at h <;> rename_i hpc <;> simp only [hpc] at hclosed
  all_goals (try simp at hclosed)
  all_goals (try split at h)
  all_goals (try (simp [sendResult, hclosed] at h))
  all_goals (try split at h)
  all_goals (try (simp at h))
  all_goals (try (subst h))
  all_goals (refine ⟨_, _, rfl, rfl, ?_⟩; simp_all [advance, Event.byRoutine, Event.sent])



theorem byRoutine_ne {i j : Nat} {e : Event} (h : Event.byRoutine j e = true) (hij : i ≠ j) :
    Event.byRoutine i e = false := by
  cases e <;> simp_all [Event.byRoutine]
  · omega
  · omega
  · omega
  · omega
  · rename_i who c
    cases who <;> simp_all [Event.byRoutine]
    omega
  · omega
  · omega

theorem byRoutine_facts {j : Nat} {e : Event} (h : Event.byRoutine j e = true) :
    Event.isRun e = false ∧ Event.received e = none ∧ e ≠ Event.cancel ∧ e ≠ Event.ctxDone := by
  cases e <;> simp_all [Event.byRoutine, Event.isRun, Event.received]
  rename_i who c
  cases who <;> simp_all [Event.byRoutine, Event.isRun]

theorem routine_step_routine {env : Env} {flag : Bool} {s s' : State} {j : Nat}
    (hinv : Inv env flag s) (h : stepRoutine env s j = some s') :
    ∀ i, RoutineInv env i (traceOf i s'.log) (s'.routines i) := by
  intro i
  have hi := hinv.routine i
  by_cases hij : i = j
  · have hclosed := hinv.not_closed_of_pending j
    unfold stepRoutine at h
    subst hij
    split at h <;> rename_i hpc <;> rw [hpc] at hi <;> simp only [hpc] at hclosed
    all_goals (try simp at hclosed)
    all_goals (try split at h)
    all_goals (try (simp [sendResult, hclosed] at h))
    all_goals (try split at h)
    all_goals (try (simp at h))
    all_goals (try (subst h))
    all_goals (simp_all [advance, traceOf_cons, Event.byRoutine, RoutineInv, wonTrace, lostTrace, failTrace])
  · obtain ⟨pc, e, hr, hl, he, -⟩ := stepRoutine_frame hinv h
    rw [hr, hl, traceOf_cons, byRoutine_ne he hij, Function.update_noteq hij]
    simpa using hi

theorem inv_step_routine {env : Env} {flag : Bool} {s s' : State} {j : Nat}
    (hinv : Inv env flag s) (h : stepRoutine env s j = some s') : Inv env flag s' := by
  have hroutine := routine_step_routine hinv h
  obtain ⟨pc, e, hr, hl, he, hm, hc, hcan, hpc, hold, hold', hsend, hcas⟩ :=
    stepRoutine_frame hinv h
  obtain ⟨hrun, hrecv, hne1, hne2⟩ := byRoutine_facts he
  have hrecvs : recvResults s'.log = recvResults s.log := by
    simp [hl, recvResults, List.filterMap_cons, hrecv]
  have hruns : runTrace s'.log = runTrace s.log := by
    simp [hl, runTrace, List.filter_cons, hrun]
  have hjn := hinv.live_lt j hold
  constructor
  · exact hroutine
  · intro i
    rw [hr, hm]
    by_cases hij : i = j
    · subst hij
      have := (hinv.idle i).not.mp hold
      simp [hpc]
      omega
    · rw [Function.update_noteq hij]
      exact hinv.idle i
  · rw [hrecvs, hruns, hcan, hm]
    exact hinv.main
  · rw [hrecvs, hm]; exact hinv.received
  · rw [hc, hm]; exact hinv.closed
  · rw [hrecvs]
    rcases hsend with ⟨h1, h2, -⟩ | ⟨r, h1, h2, h3, -⟩
    · rw [h2, ← hinv.channel, hl]
      simp [sentResults, List.filterMap_cons, h1]
    · have := hinv.channel
      rw [h2] at this
      rw [h3, hl, h1]
      simp [sentResults, List.filterMap_cons, Event.sent] at this ⊢
      exact this
  · rw [hr]
    rcases hsend with ⟨h1, h2, h3⟩ | ⟨r, h1, h2, h3, h4⟩
    · have hcount := countP_range_update_same (fun pc => decide (pc = RoutinePC.done))
        s.routines j env.hosts.length pc (by simp [h3, hold'])
      have hlen : (sentResults s'.log).length = (sentResults s.log).length := by
        simp [hl, sentResults, List.filterMap_cons, h1]
      rw [hlen, hinv.count]
      exact hcount.symm
    · have hcount := countP_range_update_gain (fun pc => decide (pc = RoutinePC.done))
        s.routines j env.hosts.length pc hjn (by simp [hold']) (by simp [h4])
      have hlen : (sentResults s'.log).length = (sentResults s.log).length + 1 := by
        simp [hl, sentResults, List.filterMap_cons, h1, Event.sent]
      rw [hlen, hinv.count]
      exact hcount.symm
  · intro hf
    have := hinv.flagKept hf
    rcases hcas with ⟨-, h2⟩ | ⟨b, -, -, h3⟩
    · rw [h2]; exact this
    · exact h3
  · intro i b hmem
    rw [hl] at hmem
    rcases hcas with ⟨h1, h2⟩ | ⟨b', h1, -, h3⟩
    · rw [h2]
      rcases List.mem_cons.mp hmem with heq | hin
      · exfalso
        have he' := he
        rw [← heq] at he'
        simp [Event.byRoutine] at he'
        subst he'
        exact h1 b heq.symm
      · exact hinv.casSets i b hin
    · exact h3
  · intro i hmem
    rw [hl] at hmem
    rcases List.mem_cons.mp hmem with heq | hin
    · rcases hcas with ⟨h1, -⟩ | ⟨b', h1, h2, -⟩
      · exfalso
        have he' := he
        rw [← heq] at he'
        simp [Event.byRoutine] at he'
        subst he'
        exact h1 true heq.symm
      · rw [h1] at heq
        simp at heq
        rw [heq.2] at h2
        cases hflag : flag with
        | false => rfl
        | true => have := hinv.flagKept hflag; simp [h2] at this
    · exact hinv.winFresh i hin
  · intro hcon
    rcases hcas with ⟨-, h2⟩ | ⟨b, h1, h2, -⟩
    · rw [h2] at hcon
      rcases hinv.setBy hcon with hf | ⟨i, hi⟩
      · exact Or.inl hf
      · exact Or.inr ⟨i, by rw [hl]; exact List.mem_cons_of_mem _ hi⟩
    · cases b with
      | true => exact Or.inr ⟨j, by rw [hl, h1]; exact List.mem_cons_self _ _⟩
      | false =>
        rcases hinv.setBy (by simpa using h2) with hf | ⟨i, hi⟩
        · exact Or.inl hf
        · exact Or.inr ⟨i, by rw [hl]; exact List.mem_cons_of_mem _ hi⟩
  · intro i k hi hk
    rw [hl] at hi hk
    rcases hcas with ⟨h1, -⟩ | ⟨b, h1, h2, -⟩
    · have hi' : Event.cas i true ∈ s.log := by
        rcases List.mem_cons.mp hi with heq | hin
        · exfalso
          have he' := he
          rw [← heq] at he'
          simp [Event.byRoutine] at he'
          subst he'
          exact h1 true heq.symm
        · exact hin
      have hk' : Event.cas k true ∈ s.log := by
        rcases List.mem_cons.mp hk with heq | hin
        · exfalso
          have he' := he
          rw [← heq] at he'
          simp [Event.byRoutine] at he'
          subst he'
          exact h1 true heq.symm
        · exact hin
      exact hinv.winUnique i k hi' hk'
    · cases b with
      | false =>
        rw [h1] at hi hk
        simp at hi hk
        exact hinv.winUnique i k hi hk
      | true =>
        have hnone : ∀ m, Event.cas m true ∉ s.log := by
          intro m hm'
          have := hinv.casSets m true hm'
          simp [h2] at this
        rw [h1] at hi hk
        simp at hi hk
        rcases hi with hi | hi
        · rcases hk with hk | hk
          · omega
          · exact absurd hk (hnone k)
        · exact absurd hi (hnone i)
  · rw [hcan, hl]
    simp [hne1.symm]
    exact hinv.cancelLogged
  · intro post pre hlog
    rw [hl] at hlog
    cases post with
    | nil => simp at hlog; exact absurd hlog.1 hne2
    | cons x post' =>
      simp at hlog
      exact hinv.doneAfterCancel post' pre hlog.2

theorem isMainEv_facts {e : Event} (h : Event.isMainEv e = true) :
    (∀ i, Event.byRoutine i e = false) ∧ Event.sent e = none ∧ ∀ i b, e ≠ Event.cas i b := by
  cases e <;> simp_all [Event.byRoutine, Event.isMainEv, Event.sent]
  rename_i who c
  cases who <;> simp_all [Event.byRoutine, Event.isMainEv]

theorem traceOf_main_append (i : Nat) (es log : List Event)
    (hes : ∀ e ∈ es, Event.isMainEv e = true) : traceOf i (es ++ log) = traceOf i log := by
  induction es with
  | nil => rfl
  | cons e es ih =>
    have h1 := (isMainEv_facts (hes e (List.mem_cons_self _ _))).1 i
    rw [List.cons_append, traceOf_cons, h1]
    simpa using ih (fun x hx => hes x (List.mem_cons_of_mem _ hx))

theorem sentResults_main_append (es log : List Event)
    (hes : ∀ e ∈ es, Event.isMainEv e = true) : sentResults (es ++ log) = sentResults log := by
  induction es with
  | nil => rfl
  | cons e es ih =>
    have h1 := (isMainEv_facts (hes e (List.mem_cons_self _ _))).2.1
    have h2 := ih (fun x hx => hes x (List.mem_cons_of_mem _ hx))
    unfold sentResults at h2 ⊢
    rw [List.cons_append, List.filterMap_cons, h1]
    exact h2

theorem cas_mem_main_append (i : Nat) (b : Bool) (es log : List Event)
    (hes : ∀ e ∈ es, Event.isMainEv e = true) :
    Event.cas i b ∈ es ++ log ↔ Event.cas i b ∈ log := by
  rw [List.mem_append]
  constructor
  · rintro (h | h)
    · exact absurd rfl ((isMainEv_facts (hes _ h)).2.2 i b)
    · exact h
  · exact Or.inr

/-- The facts about the guard survive every step that is not a compare-and-swap. -/
theorem Inv.guard_frame {env : Env} {flag : Bool} {s : State} (hinv : Inv env flag s)
    (s' : State) (es : List Event) (hlog : s'.log = es ++ s.log) (hes : ∀ e ∈ es, Event.isMainEv e = true)
    (hconn : s'.connected = s.connected) :
    (flag = true → s'.connected = true) ∧
    (∀ i b, Event.cas i b ∈ s'.log → s'.connected = true) ∧
    (∀ i, Event.cas i true ∈ s'.log → flag = false) ∧
    (s'.connected = true → flag = true ∨ ∃ i, Event.cas i true ∈ s'.log) ∧
    (∀ i j, Event.cas i true ∈ s'.log → Event.cas j true ∈ s'.log → i = j) := by
  simp only [hlog, hconn, cas_mem_main_append _ _ es s.log hes]
  exact ⟨hinv.flagKept, hinv.casSets, hinv.winFresh, hinv.setBy, hinv.winUnique⟩

theorem MainInv.cancel {env : Env} {rs : List ConnectResult} {c : Bool} {tr : List Event}
    {pc : MainPC} (h : MainInv env rs c tr pc) : MainInv env rs true tr pc := by
  cases pc with
  | closing conn => exact ⟨h.1, h.2.1, rfl, h.2.2.2⟩
  | runRet err =>
    rcases h with h | ⟨d, h1, h2, -, h4⟩
    · exact Or.inl h
    · exact Or.inr ⟨d, h1, h2, rfl, h4⟩
  | _ => exact h

theorem inv_step_cancel {env : Env} {flag : Bool} {s s' : State}
    (hinv : Inv env flag s) (h : stepCancel s = some s') : Inv env flag s' := by
  unfold stepCancel at h
  split at h
  · simp at h
  · rename_i hcan
    simp at h
    subst h
    obtain ⟨g1, g2, g3, g4, g5⟩ := hinv.guard_frame
      { s with cancelled := true, log := Event.cancel :: s.log } [Event.cancel] rfl
      (by simp [Event.isMainEv]) rfl
    have hm := hinv.main
    have htr : ∀ i, traceOf i (Event.cancel :: s.log) = traceOf i s.log := fun i =>
      traceOf_main_append i [Event.cancel] s.log (by simp [Event.isMainEv])
    have hsent : sentResults (Event.cancel :: s.log) = sentResults s.log :=
      sentResults_main_append [Event.cancel] s.log (by simp [Event.isMainEv])
    have hrecv : recvResults (Event.cancel :: s.log) = recvResults s.log := by
      simp [recvResults, List.filterMap_cons, Event.received]
    have hrun : runTrace (Event.cancel :: s.log) = runTrace s.log := by
      simp [runTrace, List.filter_cons, Event.isRun]
    refine ⟨?_, hinv.idle, ?_, ?_, hinv.closed, ?_, ?_, g1, g2, g3, g4, g5, ?_, ?_⟩
    · intro i; simp only [htr]; exact hinv.routine i
    · simp only [hrecv, hrun]
      exact hm.cancel
    · simp only [hrecv]; exact hinv.received
    · simp only [hrecv, hsent]; exact hinv.channel
    · simp only [hsent]; exact hinv.count
    · simp
    · intro post pre hlog
      cases post with
      | nil => simp at hlog
      | cons x post' =>
        simp at hlog
        exact hinv.doneAfterCancel post' pre hlog.2

/-- Rebuilding the invariant after a step of `Run` that launches no goroutine. -/
theorem Inv.main_frame {env : Env} {flag : Bool} {s s' : State} (hinv : Inv env flag s)
    (es : List Event) (hlog : s'.log = es ++ s.log) (hes : ∀ e ∈ es, Event.isMainEv e = true)
    (hnc : Event.cancel ∉ es)
    (hconn : s'.connected = s.connected) (hrout : s'.routines = s.routines)
    (hcancel : s'.cancelled = s.cancelled)
    (hlaunched : launched env s'.mainPc = launched env s.mainPc)
    (hchan : s'.buf.toList ++ recvResults s'.log = s.buf.toList ++ recvResults s.log)
    (hmain : MainInv env (recvResults s'.log) s'.cancelled (runTrace s'.log) s'.mainPc)
    (hrecv : (recvResults s'.log).length = receivedCount env s'.mainPc)
    (hclosed : s'.chClosed = pastClose s'.mainPc)
    (hdone : ∀ post pre, s'.log = post ++ Event.ctxDone :: pre → Event.cancel ∈ pre) :
    Inv env flag s' := by
  obtain ⟨g1, g2, g3, g4, g5⟩ := hinv.guard_frame s' es hlog hes hconn
  have hsent : sentResults s'.log = sentResults s.log := by
    rw [hlog]; exact sentResults_main_append es s.log hes
  refine ⟨?_, ?_, hmain, hrecv, hclosed, ?_, ?_, g1, g2, g3, g4, g5, ?_, hdone⟩
  · intro i
    rw [hlog, traceOf_main_append i es s.log hes, hrout]
    exact hinv.routine i
  · intro i
    rw [hrout, hlaunched]
    exact hinv.idle i
  · rw [hsent, hchan]; exact hinv.channel
  · rw [hsent, hrout]; exact hinv.count
  · rw [hcancel, hlog, List.mem_append]
    constructor
    · intro h; exact Or.inr (hinv.cancelLogged.mp h)
    · rintro (h | h)
      · exact absurd h hnc
      · exact hinv.cancelLogged.mpr h

theorem doneAfterCancel_cons {log : List Event} {e : Event} (hne : e ≠ Event.ctxDone)
    (h : ∀ post pre, log = post ++ Event.ctxDone :: pre → Event.cancel ∈ pre) :
    ∀ post pre, e :: log = post ++ Event.ctxDone :: pre → Event.cancel ∈ pre := by
  intro post pre hlog
  cases post with
  | nil => simp at hlog; exact absurd hlog.1 hne
  | cons x post' =>
    simp at hlog
    exact h post' pre hlog.2

theorem recvResults_cons (e : Event) (log : List Event) :
    recvResults (e :: log) =
      match Event.received e with
      | some r => r :: recvResults log
      | none => recvResults log := by
  unfold recvResults
  rw [List.filterMap_cons]
  cases Event.received e <;> rfl

theorem runTrace_cons (e : Event) (log : List Event) :
    runTrace (e :: log) = if Event.isRun e = true then e :: runTrace log else runTrace log := by
  unfold runTrace
  rw [List.filter_cons]

theorem inv_step_main {env : Env} {flag : Bool} {s s' : State}
    (hinv : Inv env flag s) (h : stepMain env s = some s') : Inv env flag s' := by
  have hm := hinv.main
  have hrc := hinv.received
  have hcl := hinv.closed
  unfold stepMain at h
  split at h <;> rename_i hpc <;> rw [hpc] at hm hrc hcl <;>
    simp only [MainInv, receivedCount, pastClose] at hm hrc hcl
  · -- spawn
    rename_i x k
    split at h <;> rename_i hk <;> simp at h <;> subst h
    · have hes : ∀ e ∈ [Event.spawn k], Event.isMainEv e = true := by simp [Event.isMainEv]
      have hidle : s.routines k = RoutinePC.idle := by
        rw [hinv.idle k, hpc, launched]
      obtain ⟨g1, g2, g3, g4, g5⟩ := hinv.guard_frame
        { s with mainPc := MainPC.spawn (k + 1),
                 routines := Function.update s.routines k RoutinePC.start,
                 log := Event.spawn k :: s.log } [Event.spawn k] rfl hes rfl
      have htr : ∀ i, traceOf i (Event.spawn k :: s.log) = traceOf i s.log := fun i =>
        traceOf_main_append i [Event.spawn k] s.log hes
      have hsent : sentResults (Event.spawn k :: s.log) = sentResults s.log :=
        sentResults_main_append [Event.spawn k] s.log hes
      refine ⟨?_, ?_, ?_, ?_, ?_, ?_, ?_, g1, g2, g3, g4, g5, ?_, ?_⟩
      · intro i
        simp only [htr]
        have hi := hinv.routine i
        by_cases hik : i = k
        · subst hik
          rw [hidle] at hi
          simpa [RoutineInv] using hi
        · simpa [Function.update_noteq hik] using hi
      · intro i
        have hi := hinv.idle i
        rw [hpc] at hi
        simp only [launched] at hi ⊢
        by_cases hik : i = k
        · subst hik
          simp
        · rw [Function.update_noteq hik, hi]
          omega
      · simp only [MainInv, runTrace_cons, Event.isRun]
        exact ⟨hk, by simpa using hm.2⟩
      · simp only [recvResults_cons, Event.received, receivedCount]
        exact hrc
      · simp [pastClose, hcl]
      · simp only [hsent, recvResults_cons, Event.received]
        exact hinv.channel
      · simp only [hsent]
        rw [hinv.count]
        exact (countP_range_update_same (fun pc => decide (pc = RoutinePC.done)) s.routines k
          env.hosts.length RoutinePC.start (by simp [hidle])).symm
      · simp
        exact hinv.cancelLogged
      · exact doneAfterCancel_cons (by simp) hinv.doneAfterCancel
    · have hkn : _ = env.hosts.length := Nat.le_antisymm hm.1 (Nat.le_of_not_lt hk)
      have hnil : recvResults s.log = [] := List.length_eq_zero.mp hrc
      refine hinv.main_frame [] rfl (by simp) (by simp) rfl rfl rfl ?_ rfl ?_ ?_ ?_ hinv.doneAfterCancel
      · simp [launched, hpc, hkn]
      · simp [MainInv, hm, hnil, lastConn]
      · simp [receivedCount, hnil, hkn]
      · simp [pastClose, hcl]
  · -- recv 0: close(ch)
    simp at h; subst h
    refine hinv.main_frame [Event.chanClose] rfl (by simp [Event.isMainEv]) (by simp) rfl rfl rfl
      ?_ ?_ ?_ ?_ ?_ (doneAfterCancel_cons (by simp) hinv.doneAfterCancel)
    · simp [launched, hpc]
    · simp [recvResults_cons, Event.received]
    · simp only [MainInv, List.singleton_append, recvResults_cons, Event.received,
        runTrace_cons, Event.isRun]
      exact ⟨hm.2.1, hm.2.2⟩
    · simp only [List.singleton_append, recvResults_cons, Event.received, receivedCount]
      simpa using hrc
    · simp [pastClose]
  · -- recv (counter + 1)
    split at h <;> rename_i hbuf <;> simp at h
    subst h
    refine hinv.main_frame [Event.recv _] rfl (by simp [Event.isMainEv]) (by simp) rfl rfl rfl
      ?_ ?_ ?_ ?_ ?_ (doneAfterCancel_cons (by simp) hinv.doneAfterCancel)
    · simp [launched, hpc]
    · simp [recvResults_cons, Event.received, hbuf]
    · simp only [MainInv, List.singleton_append, recvResults_cons, Event.received,
        runTrace_cons, Event.isRun, lastConn]
      refine ⟨by omega, ?_, hm.2.2⟩
      rw [hm.2.1]
      simp [recvResults]
    · simp only [List.singleton_append, recvResults_cons, Event.received, receivedCount,
        List.length_cons]
      omega
    · simp [pastClose, hcl]
  · -- chClosed: return from connect
    split at h <;> rename_i hconn <;> simp at h <;> subst h
    · refine hinv.main_frame [Event.connectRet _ _] rfl (by simp [Event.isMainEv]) (by simp)
        rfl rfl rfl ?_ ?_ ?_ ?_ ?_ (doneAfterCancel_cons (by simp) hinv.doneAfterCancel)
      · simp [launched, hpc]
      · simp [recvResults_cons, Event.received]
      · simp only [MainInv, List.singleton_append, recvResults_cons, Event.received,
          runTrace_cons, Event.isRun]
        refine ⟨?_, by simp [hm.2]⟩
        rw [← hm.1]
        simp [connectResult, hconn]
      · simp only [List.singleton_append, recvResults_cons, Event.received, receivedCount]
        exact hrc
      · simp [pastClose, hcl]
    · refine hinv.main_frame [Event.connectRet _ _] rfl (by simp [Event.isMainEv]) (by simp)
        rfl rfl rfl ?_ ?_ ?_ ?_ ?_ (doneAfterCancel_cons (by simp) hinv.doneAfterCancel)
      · simp [launched, hpc]
      · simp [recvResults_cons, Event.received]
      · simp only [MainInv, List.singleton_append, recvResults_cons, Event.received,
          runTrace_cons, Event.isRun]
        refine ⟨?_, by simp [hm.2]⟩
        rw [← hm.1]
        simp [connectResult, hconn]
      · simp only [List.singleton_append, recvResults_cons, Event.received, receivedCount]
        exact hrc
      · simp [pastClose, hcl]
  · -- retConnect: line 63
    rename_i x conn err
    have hres := hm.1
    split at h <;> simp at h <;> subst h
    · rename_i e
      have hlast : lastConn (recvResults s.log) = none ∧ e = ErrConnectFailed ∧ conn = none := by
        unfold connectResult at hres
        split at hres <;> simp at hres
        rename_i hnone
        simp at hnone
        exact ⟨hnone, hres.2, hres.1⟩
      refine hinv.main_frame [Event.runRet _] rfl (by simp [Event.isMainEv]) (by simp)
        rfl rfl rfl ?_ ?_ ?_ ?_ ?_ (doneAfterCancel_cons (by simp) hinv.doneAfterCancel)
      · simp [launched, hpc]
      · simp [recvResults_cons, Event.received]
      · simp only [MainInv, List.singleton_append, recvResults_cons, Event.received,
          runTrace_cons, Event.isRun]
        left
        refine ⟨hlast.1, by rw [hlast.2.1], ?_⟩
        simp [hm.2, hlast.2.1, hlast.2.2]
      · simp only [List.singleton_append, recvResults_cons, Event.received, receivedCount]
        exact hrc
      · simp [pastClose, hcl]
    · have hlast : (∃ c, conn = some c) ∧ conn = lastConn (recvResults s.log) := by
        unfold connectResult at hres
        split at hres <;> simp at hres
        rename_i hsome
        rw [hres]
        exact ⟨Option.ne_none_iff_exists'.mp hsome, rfl⟩
      refine hinv.main_frame [] rfl (by simp) (by simp)
        rfl rfl rfl ?_ ?_ ?_ ?_ ?_ hinv.doneAfterCancel
      · simp [launched, hpc]
      · simp
      · simp only [MainInv, List.nil_append]
        exact ⟨hlast.1, hlast.2, hm.2⟩
      · simp only [List.nil_append, receivedCount]
        exact hrc
      · simp [pastClose, hcl]
  · -- waitDone: line 66
    split at h <;> rename_i hcan <;> simp at h
    subst h
    have hdone : ∀ post pre, Event.ctxDone :: s.log = post ++ Event.ctxDone :: pre →
        Event.cancel ∈ pre := by
      intro post pre hlog
      cases post with
      | nil =>
        simp at hlog
        rw [← hlog]
        exact hinv.cancelLogged.mp hcan
      | cons x post' =>
        simp at hlog
        exact hinv.doneAfterCancel post' pre hlog.2
    refine hinv.main_frame [Event.ctxDone] rfl (by simp [Event.isMainEv]) (by simp)
      rfl rfl rfl ?_ ?_ ?_ ?_ ?_ hdone
    · simp [launched, hpc]
    · simp [recvResults_cons, Event.received]
    · simp only [MainInv, List.singleton_append, recvResults_cons, Event.received,
        runTrace_cons, Event.isRun]
      exact ⟨hm.1, hm.2.1, hcan, by simp [hm.2.2]⟩
    · simp only [List.singleton_append, recvResults_cons, Event.received, receivedCount]
      exact hrc
    · simp [pastClose, hcl]
  · -- closing: line 67
    obtain ⟨⟨c, hc⟩, hlast, hcan, htr⟩ := hm
    subst hc
    simp at h
    subst h
    refine hinv.main_frame [Event.runRet _, Event.connClose Closer.run c] rfl
      (by simp [Event.isMainEv]) (by simp) rfl rfl rfl ?_ ?_ ?_ ?_ ?_
      (doneAfterCancel_cons (by simp) (doneAfterCancel_cons (by simp) hinv.doneAfterCancel))
    · simp [launched, hpc]
    · simp [recvResults_cons, Event.received]
    · simp only [MainInv, List.cons_append, List.nil_append, recvResults_cons, Event.received,
        runTrace_cons, Event.isRun]
      right
      exact ⟨c, hlast.symm, rfl, hcan, by simp [htr]⟩
    · simp only [List.cons_append, List.nil_append, recvResults_cons, Event.received,
        receivedCount]
      exact hrc
    · simp [pastClose, hcl]
  · simp at h

theorem inv_step {env : Env} {flag : Bool} {s s' : State} {a : Action}
    (hinv : Inv env flag s) (h : step env s a = some s') : Inv env flag s' := by
  cases a with
  | main => exact inv_step_main hinv h
  | routine i => exact inv_step_routine hinv h
  | cancel => exact inv_step_cancel hinv h

theorem inv_exec {env : Env} {flag : Bool} (sched : List Action) :
    ∀ s, Inv env flag s → Inv env flag (exec env s sched) := by
  induction sched with
  | nil => intro s hs; exact hs
  | cons a rest ih =>
    intro s hs
    unfold exec
    apply ih
    cases hstep : step env s a with
    | none => simpa using hs
    | some s' => simpa using inv_step hs hstep

/-! ## Progress and termination -/

theorem sum_range_update_of_le (g : RoutinePC → Nat) (f : Nat → RoutinePC) (i n : Nat)
    (pc : RoutinePC) (h : n ≤ i) :
    ((List.range n).map (fun j => g (Function.update f i pc j))).sum =
      ((List.range n).map (fun j => g (f j))).sum := by
  congr 1
  apply List.map_congr_left
  intro j hj
  have hj' : j < n := List.mem_range.mp hj
  have hne : j ≠ i := by omega
  simp [Function.update_noteq hne]

theorem sum_range_update (g : RoutinePC → Nat) (f : Nat → RoutinePC) (i n : Nat)
    (pc : RoutinePC) (hi : i < n) :
    ((List.range n).map (fun j => g (Function.update f i pc j))).sum + g (f i) =
      ((List.range n).map (fun j => g (f j))).sum + g pc := by
  induction n with
  | zero => omega
  | succ n ih =>
    rw [List.range_succ, List.map_append, List.map_append, List.sum_append, List.sum_append]
    by_cases hin : i < n
    · have hne : n ≠ i := by omega
      have := ih hin
      simp only [List.map_cons, List.map_nil, List.sum_cons, List.sum_nil,
        Function.update_noteq hne]
      omega
    · have hin' : i = n := by omega
      subst hin'
      rw [sum_range_update_of_le g f i i pc (Nat.le_refl i)]
      simp
      omega

/-- Every move of attempt `j` lowers its rank. -/
theorem stepRoutine_rank {env : Env} {flag : Bool} {s s' : State} {j : Nat}
    (hinv : Inv env flag s) (h : stepRoutine env s j = some s') :
    routineRank (s'.routines j) < routineRank (s.routines j) := by
  have hclosed := hinv.not_closed_of_pending j
  unfold stepRoutine at h
  split at h <;> rename_i hpc <;> simp only [hpc] at hclosed ⊢
  all_goals (try simp at hclosed)
  all_goals (try split at h)
  all_goals (try (simp [sendResult, hclosed] at h))
  all_goals (try split at h)
  all_goals (try (simp at h))
  all_goals (try (subst h))
  all_goals (simp [advance, routineRank])

theorem measure_step_routine {env : Env} {flag : Bool} {s s' : State} {j : Nat}
    (hinv : Inv env flag s) (h : stepRoutine env s j = some s') :
    measure env s' < measure env s := by
  obtain ⟨pc, e, hr, -, -, hm, -, hcan, -, hold, -⟩ := stepRoutine_frame hinv h
  have hrank := stepRoutine_rank hinv h
  have hjn := hinv.live_lt j hold
  have hsum := sum_range_update routineRank s.routines j env.hosts.length pc hjn
  unfold measure
  rw [hr, hm, hcan]
  rw [hr] at hrank
  simp only [Function.update_same] at hrank
  omega

theorem measure_step_cancel {env : Env} {s s' : State} (h : stepCancel s = some s') :
    measure env s' < measure env s := by
  unfold stepCancel at h
  split at h <;> rename_i hc <;> simp at h
  subst h
  simp [measure, hc]

theorem measure_step_main {env : Env} {flag : Bool} {s s' : State}
    (hinv : Inv env flag s) (h : stepMain env s = some s') :
    measure env s' < measure env s := by
  have hm := hinv.main
  unfold stepMain at h
  split at h <;> rename_i hpc <;> rw [hpc] at hm <;> simp only [MainInv] at hm
  · rename_i x k
    split at h <;> rename_i hk <;> simp at h <;> subst h
    · have hidle : s.routines k = RoutinePC.idle := by rw [hinv.idle k, hpc, launched]
      have hsum := sum_range_update routineRank s.routines k env.hosts.length RoutinePC.start hk
      simp only [measure, hpc, mainRank]
      have e1 : routineRank RoutinePC.idle = 6 := rfl
      have e2 : routineRank RoutinePC.start = 6 := rfl
      rw [hidle, e1, e2] at hsum
      omega
    · simp only [measure, hpc, mainRank]
      omega
  · simp at h; subst h
    simp [measure, hpc, mainRank]
  · split at h <;> simp at h
    subst h
    simp [measure, hpc, mainRank]
  · split at h <;> simp at h <;> subst h <;> simp [measure, hpc, mainRank]
  · split at h <;> simp at h <;> subst h <;> simp [measure, hpc, mainRank]
  · split at h <;> simp at h
    subst h
    simp [measure, hpc, mainRank]
  · obtain ⟨⟨c, hc⟩, -⟩ := hm
    subst hc
    simp at h
    subst h
    simp [measure, hpc, mainRank]
  · simp at h

theorem measure_step {env : Env} {flag : Bool} {s s' : State} {a : Action}
    (hinv : Inv env flag s) (h : step env s a = some s') : measure env s' < measure env s := by
  cases a with
  | main => exact measure_step_main hinv h
  | routine i => exact measure_step_routine hinv h
  | cancel => exact measure_step_cancel h

/-- No run makes more moves than the measure of its first state. -/
theorem moves_le_measure {env : Env} {flag : Bool} (sched : List Action) :
    ∀ s, Inv env flag s → moves env s sched + measure env (exec env s sched) ≤ measure env s := by
  induction sched with
  | nil => intro s _; simp [moves, exec]
  | cons a rest ih =>
    intro s hs
    unfold moves exec
    cases hstep : step env s a with
    | none => simpa using ih s hs
    | some s' =>
      have h1 := ih s' (inv_step hs hstep)
      have h2 := measure_step hs hstep
      simp only [Option.getD_some]
      omega

theorem measure_init (env : Env) (flag : Bool) :
    measure env (init flag) = 8 * env.hosts.length + 7 := by
  have hsum : ∀ n : Nat, ((List.range n).map (fun _ => 6)).sum = 6 * n := by
    intro n
    induction n with
    | zero => rfl
    | succ n ih => rw [List.range_succ, List.map_append, List.sum_append, ih]; simp; omega
  simp only [measure, init, mainRank, routineRank, hsum]
  simp
  omega

/-- An attempt that is launched and has not returned can move whenever the buffer of the
channel is empty. -/
theorem stepRoutine_enabled {env : Env} {flag : Bool} {s : State} {i : Nat}
    (hinv : Inv env flag s) (h1 : s.routines i ≠ RoutinePC.idle)
    (h2 : s.routines i ≠ RoutinePC.done) (hbuf : s.buf = none) :
    (stepRoutine env s i).isSome = true := by
  have hclosed := hinv.not_closed_of_pending i h1 h2
  have hr := hinv.routine i
  unfold stepRoutine
  cases hpc : s.routines i <;> rw [hpc] at hr <;>
    simp_all [sendResult, RoutineInv]
  · cases env.dialErr i <;> simp
  · split <;> simp

/-- Before `connect` returns, some thread of the program can always move: the race
cannot deadlock. -/
theorem progress_connect {env : Env} {flag : Bool} {s : State} (hinv : Inv env flag s)
    (hnot : connectReturned s.mainPc = false) :
    (stepMain env s).isSome = true ∨
      ∃ i, i < env.hosts.length ∧ (stepRoutine env s i).isSome = true := by
  have hm := hinv.main
  have hrc := hinv.received
  cases hpc : s.mainPc with
  | spawn k =>
    left
    unfold stepMain
    rw [hpc]
    simp only
    split <;> simp
  | recv counter conn =>
    cases counter with
    | zero => left; unfold stepMain; rw [hpc]; simp
    | succ c =>
      cases hbuf : s.buf with
      | some r => left; unfold stepMain; rw [hpc]; simp [hbuf]
      | none =>
        right
        rw [hpc] at hm hrc
        simp only [MainInv, receivedCount] at hm hrc
        have hch := congrArg List.length hinv.channel
        rw [hbuf] at hch
        simp at hch
        have hlt : (List.range env.hosts.length).countP
            (fun i => decide (s.routines i = RoutinePC.done)) < env.hosts.length := by
          rw [← hinv.count, hch, hrc]
          omega
        obtain ⟨i, hi, hnd⟩ := exists_not_of_countP_lt
          (fun pc => decide (pc = RoutinePC.done)) s.routines env.hosts.length hlt
        refine ⟨i, hi, stepRoutine_enabled hinv ?_ (by simpa using hnd) hbuf⟩
        intro hidle
        have := (hinv.idle i).mp hidle
        rw [hpc] at this
        simp only [launched] at this
        omega
  | chClosed conn =>
    left
    unfold stepMain
    rw [hpc]
    simp only
    split <;> simp
  | retConnect conn err => rw [hpc] at hnot; simp [connectReturned] at hnot
  | waitDone conn => rw [hpc] at hnot; simp [connectReturned] at hnot
  | closing conn => rw [hpc] at hnot; simp [connectReturned] at hnot
  | runRet err => rw [hpc] at hnot; simp [connectReturned] at hnot
  | nilDeref => rw [hpc] at hnot; simp [connectReturned] at hnot

/-- After `connect` has returned, `Run` can move unless it is waiting for a cancellation
that has not happened, in which case the cancellation can happen. -/
theorem progress_run {env : Env} {flag : Bool} {s : State} (hinv : Inv env flag s)
    (hret : connectReturned s.mainPc = true) (hnot : runReturned s.mainPc = false) :
    (stepMain env s).isSome = true ∨
      ((∃ conn, s.mainPc = MainPC.waitDone conn) ∧ s.cancelled = false ∧
        (stepCancel s).isSome = true) := by
  have hm := hinv.main
  cases hpc : s.mainPc with
  | spawn k => rw [hpc] at hret; simp [connectReturned] at hret
  | recv counter conn => rw [hpc] at hret; simp [connectReturned] at hret
  | chClosed conn => rw [hpc] at hret; simp [connectReturned] at hret
  | retConnect conn err =>
    left
    unfold stepMain
    rw [hpc]
    simp only
    split <;> simp
  | waitDone conn =>
    cases hcan : s.cancelled with
    | true => left; unfold stepMain; rw [hpc]; simp [hcan]
    | false => right; exact ⟨⟨conn, rfl⟩, rfl, by simp [stepCancel, hcan]⟩
  | closing conn =>
    left
    unfold stepMain
    rw [hpc]
    simp only
    split <;> simp
  | runRet err => rw [hpc] at hnot; simp [runReturned] at hnot
  | nilDeref => rw [hpc] at hm; simp [MainInv] at hm

/-! ## What the log of a reachable state contains -/

theorem mem_traceOf {i : Nat} {e : Event} {log : List Event} (h : e ∈ log)
    (hi : Event.byRoutine i e = true) : e ∈ traceOf i log :=
  List.mem_filter.mpr ⟨h, hi⟩

theorem mem_of_mem_traceOf {i : Nat} {e : Event} {log : List Event} (h : e ∈ traceOf i log) :
    e ∈ log :=
  (List.mem_filter.mp h).1

/-- A completed send determines the path its attempt took. -/
theorem Inv.send_cases {env : Env} {flag : Bool} {s : State} (hinv : Inv env flag s)
    {i : Nat} {r : ConnectResult} (h : Event.send i r ∈ s.log) :
    s.routines i = RoutinePC.done ∧
    ((∃ e, env.dialErr i = some e ∧ r = ⟨none, some e⟩ ∧
        traceOf i s.log = Event.send i r :: failTrace env i) ∨
      (env.dialErr i = none ∧ r = ⟨some (connOf env i), none⟩ ∧
        traceOf i s.log = Event.send i r :: wonTrace env i) ∨
      (env.dialErr i = none ∧ r = ⟨none, none⟩ ∧
        traceOf i s.log = Event.send i r :: lostTrace env i)) := by
  have hr := hinv.routine i
  have hmem : Event.send i r ∈ traceOf i s.log := mem_traceOf h (by simp [Event.byRoutine])
  cases hpc : s.routines i <;> rw [hpc] at hr <;>
    simp only [RoutineInv, wonTrace, lostTrace, failTrace] at hr
  case done =>
    refine ⟨rfl, ?_⟩
    rcases hr with ⟨e, h1, h2⟩ | ⟨h1, h2⟩ | ⟨h1, h2⟩
    · left
      rw [h2] at hmem
      simp at hmem
      exact ⟨e, h1, hmem, by rw [h2, hmem]; rfl⟩
    · right; left
      rw [h2] at hmem
      simp at hmem
      exact ⟨h1, hmem, by rw [h2, hmem]; rfl⟩
    · right; right
      rw [h2] at hmem
      simp at hmem
      exact ⟨h1, hmem, by rw [h2, hmem]; rfl⟩
  all_goals (exfalso; simp_all)

/-- An attempt that has returned took one of the three paths of `connectRoutine`. -/
theorem Inv.done_cases {env : Env} {flag : Bool} {s : State} (hinv : Inv env flag s)
    {i : Nat} (h : s.routines i = RoutinePC.done) :
    (∃ e, env.dialErr i = some e ∧
        traceOf i s.log = Event.send i ⟨none, some e⟩ :: failTrace env i) ∨
      (env.dialErr i = none ∧
        traceOf i s.log = Event.send i ⟨some (connOf env i), none⟩ :: wonTrace env i) ∨
      (env.dialErr i = none ∧
        traceOf i s.log = Event.send i ⟨none, none⟩ :: lostTrace env i) := by
  have hr := hinv.routine i
  rw [h] at hr
  exact hr

/-- A won compare-and-swap excludes a lost one, a close and a failed dial of the same
attempt. -/
theorem Inv.won_facts {env : Env} {flag : Bool} {s : State} (hinv : Inv env flag s)
    {i : Nat} (h : Event.cas i true ∈ s.log) :
    env.dialErr i = none ∧ Event.cas i false ∉ s.log ∧
      (∀ c, Event.connClose (Closer.routine i) c ∉ s.log) ∧
      (s.routines i = RoutinePC.done →
        traceOf i s.log = Event.send i ⟨some (connOf env i), none⟩ :: wonTrace env i) := by
  have hr := hinv.routine i
  have hmem : Event.cas i true ∈ traceOf i s.log := mem_traceOf h (by simp [Event.byRoutine])
  have hno : ∀ e, Event.byRoutine i e = true → e ∉ traceOf i s.log → e ∉ s.log :=
    fun e he hn hin => hn (mem_traceOf hin he)
  cases hpc : s.routines i <;> rw [hpc] at hr <;>
    simp only [RoutineInv, wonTrace, lostTrace, failTrace] at hr
  case done =>
    rcases hr with ⟨e, h1, h2⟩ | ⟨h1, h2⟩ | ⟨h1, h2⟩
    · rw [h2] at hmem; simp at hmem
    · refine ⟨h1, hno _ (by simp [Event.byRoutine]) (by simp [h2]),
        fun c => hno _ (by simp [Event.byRoutine]) (by simp [h2]), fun _ => ?_⟩
      rw [h2]; rfl
    · rw [h2] at hmem; simp at hmem
  case wonPrint c =>
    obtain ⟨h1, -, h2⟩ := hr
    exact ⟨h1, hno _ (by simp [Event.byRoutine]) (by simp [h2]),
        fun c => hno _ (by simp [Event.byRoutine]) (by simp [h2]), by simp⟩
  case wonPipeIn c =>
    obtain ⟨h1, -, h2⟩ := hr
    exact ⟨h1, hno _ (by simp [Event.byRoutine]) (by simp [h2]),
        fun c => hno _ (by simp [Event.byRoutine]) (by simp [h2]), by simp⟩
  case wonPipeOut c =>
    obtain ⟨h1, -, h2⟩ := hr
    exact ⟨h1, hno _ (by simp [Event.byRoutine]) (by simp [h2]),
        fun c => hno _ (by simp [Event.byRoutine]) (by simp [h2]), by simp⟩
  case wonSend c =>
    obtain ⟨h1, -, h2⟩ := hr
    exact ⟨h1, hno _ (by simp [Event.byRoutine]) (by simp [h2]),
        fun c => hno _ (by simp [Event.byRoutine]) (by simp [h2]), by simp⟩
  all_goals (exfalso; simp_all)

/-- A lost compare-and-swap excludes a won one of the same attempt. -/
theorem Inv.lost_facts {env : Env} {flag : Bool} {s : State} (hinv : Inv env flag s)
    {i : Nat} (h : Event.cas i false ∈ s.log) :
    env.dialErr i = none ∧ Event.cas i true ∉ s.log ∧
      (s.routines i = RoutinePC.done →
        traceOf i s.log = Event.send i ⟨none, none⟩ :: lostTrace env i) := by
  refine ⟨?_, fun hw => (hinv.won_facts hw).2.1 h, fun hd => ?_⟩
  · have hr := hinv.routine i
    have hmem : Event.cas i false ∈ traceOf i s.log := mem_traceOf h (by simp [Event.byRoutine])
    cases hpc : s.routines i <;> rw [hpc] at hr <;>
      simp only [RoutineInv, wonTrace, lostTrace, failTrace] at hr
    case done =>
      rcases hr with ⟨e, h1, h2⟩ | ⟨h1, h2⟩ | ⟨h1, h2⟩
      · rw [h2] at hmem; simp at hmem
      · exact h1
      · exact h1
    all_goals (first | exact hr.1 | (exfalso; simp_all))
  · have hmem : Event.cas i false ∈ traceOf i s.log := mem_traceOf h (by simp [Event.byRoutine])
    rcases hinv.done_cases hd with ⟨e, h1, h2⟩ | ⟨h1, h2⟩ | ⟨h1, h2⟩
    · rw [h2] at hmem; simp [failTrace] at hmem
    · rw [h2] at hmem; simp [wonTrace] at hmem
    · exact h2

/-- Only an attempt that lost the compare-and-swap closes a connection, namely its own. -/
theorem Inv.close_facts {env : Env} {flag : Bool} {s : State} (hinv : Inv env flag s)
    {i : Nat} {c : Conn} (h : Event.connClose (Closer.routine i) c ∈ s.log) :
    c = connOf env i ∧ Event.cas i false ∈ s.log := by
  have hr := hinv.routine i
  have hmem : Event.connClose (Closer.routine i) c ∈ traceOf i s.log :=
    mem_traceOf h (by simp [Event.byRoutine])
  have hin : Event.cas i false ∈ traceOf i s.log → Event.cas i false ∈ s.log :=
    mem_of_mem_traceOf
  cases hpc : s.routines i <;> rw [hpc] at hr <;>
    simp only [RoutineInv, wonTrace, lostTrace, failTrace] at hr
  case done =>
    rcases hr with ⟨e, h1, h2⟩ | ⟨h1, h2⟩ | ⟨h1, h2⟩
    · rw [h2] at hmem; simp at hmem
    · rw [h2] at hmem; simp at hmem
    · rw [h2] at hmem hin
      simp at hmem
      exact ⟨hmem, hin (by simp)⟩
  case lostSend =>
    obtain ⟨-, h2⟩ := hr
    rw [h2] at hmem hin
    simp at hmem
    exact ⟨hmem, hin (by simp)⟩
  all_goals (exfalso; simp_all)

/-- Only an attempt that won the compare-and-swap starts copy loops, and only the two of
lines 97-98. -/
theorem Inv.pipe_facts {env : Env} {flag : Bool} {s : State} (hinv : Inv env flag s)
    {i : Nat} {dst src : Stream} (h : Event.pipe i dst src ∈ s.log) :
    Event.cas i true ∈ s.log ∧
      ((dst = Stream.conn (connOf env i) ∧ src = Stream.stdin) ∨
        (dst = Stream.stdout ∧ src = Stream.conn (connOf env i))) := by
  have hr := hinv.routine i
  have hmem : Event.pipe i dst src ∈ traceOf i s.log :=
    mem_traceOf h (by simp [Event.byRoutine])
  have hin : Event.cas i true ∈ traceOf i s.log → Event.cas i true ∈ s.log :=
    mem_of_mem_traceOf
  cases hpc : s.routines i <;> rw [hpc] at hr <;>
    simp only [RoutineInv, wonTrace, lostTrace, failTrace] at hr
  case done =>
    rcases hr with ⟨e, h1, h2⟩ | ⟨h1, h2⟩ | ⟨h1, h2⟩
    · rw [h2] at hmem; simp at hmem
    · rw [h2] at hmem hin
      simp at hmem
      exact ⟨hin (by simp), by tauto⟩
    · rw [h2] at hmem; simp at hmem
  case wonPipeOut c =>
    obtain ⟨-, -, h2⟩ := hr
    rw [h2] at hmem hin
    simp at hmem
    exact ⟨hin (by simp), by tauto⟩
  case wonSend c =>
    obtain ⟨-, -, h2⟩ := hr
    rw [h2] at hmem hin
    simp at hmem
    exact ⟨hin (by simp), by tauto⟩
  all_goals (exfalso; simp_all)

/-- Only an attempt that won the compare-and-swap writes to standard error, and what it
writes is the line of line 96. -/
theorem Inv.print_facts {env : Env} {flag : Bool} {s : State} (hinv : Inv env flag s)
    {i : Nat} {line : String} (h : Event.print i line ∈ s.log) :
    Event.cas i true ∈ s.log ∧ line = "Connected to " ++ hostAt env i ++ "\n" := by
  have hr := hinv.routine i
  have hmem : Event.print i line ∈ traceOf i s.log :=
    mem_traceOf h (by simp [Event.byRoutine])
  have hin : Event.cas i true ∈ traceOf i s.log → Event.cas i true ∈ s.log :=
    mem_of_mem_traceOf
  cases hpc : s.routines i <;> rw [hpc] at hr <;>
    simp only [RoutineInv, wonTrace, lostTrace, failTrace] at hr
  case done =>
    rcases hr with ⟨e, h1, h2⟩ | ⟨h1, h2⟩ | ⟨h1, h2⟩
    · rw [h2] at hmem; simp at hmem
    · rw [h2] at hmem hin
      simp at hmem
      exact ⟨hin (by simp), hmem⟩
    · rw [h2] at hmem; simp at hmem
  case wonPipeIn c =>
    obtain ⟨-, -, h2⟩ := hr
    rw [h2] at hmem hin
    simp at hmem
    exact ⟨hin (by simp), hmem⟩
  case wonPipeOut c =>
    obtain ⟨-, -, h2⟩ := hr
    rw [h2] at hmem hin
    simp at hmem
    exact ⟨hin (by simp), hmem⟩
  case wonSend c =>
    obtain ⟨-, -, h2⟩ := hr
    rw [h2] at hmem hin
    simp at hmem
    exact ⟨hin (by simp), hmem⟩
  all_goals (exfalso; simp_all)

/-- A successful dial is recorded only for an attempt whose dial succeeds, with the
address of that attempt. -/
theorem Inv.dial_facts {env : Env} {flag : Bool} {s : State} (hinv : Inv env flag s)
    {i : Nat} {addr : String} {ok : Bool} (h : Event.dial i addr ok ∈ s.log) :
    addr = addrOf env i ∧ (ok = true ↔ env.dialErr i = none) := by
  have hr := hinv.routine i
  have hmem : Event.dial i addr ok ∈ traceOf i s.log :=
    mem_traceOf h (by simp [Event.byRoutine])
  cases hpc : s.routines i <;> rw [hpc] at hr <;>
    simp only [RoutineInv, wonTrace, lostTrace, failTrace] at hr
  case done =>
    rcases hr with ⟨e, h1, h2⟩ | ⟨h1, h2⟩ | ⟨h1, h2⟩ <;> rw [h2] at hmem <;> simp at hmem <;>
      simp [hmem, h1]
  all_goals (first | (exfalso; simp_all; done) | (obtain ⟨h1, h2⟩ := hr; simp_all))

/-- An attempt that has returned after a successful dial without winning has closed its
connection. -/
theorem Inv.done_lost {env : Env} {flag : Bool} {s : State} (hinv : Inv env flag s)
    {i : Nat} (hd : s.routines i = RoutinePC.done) (hok : env.dialErr i = none)
    (hnw : Event.cas i true ∉ s.log) :
    Event.connClose (Closer.routine i) (connOf env i) ∈ s.log ∧ Event.cas i false ∈ s.log := by
  rcases hinv.done_cases hd with ⟨e, h1, h2⟩ | ⟨h1, h2⟩ | ⟨h1, h2⟩
  · rw [hok] at h1; simp at h1
  · exfalso
    apply hnw
    apply mem_of_mem_traceOf (i := i)
    rw [h2]
    simp [wonTrace]
  · constructor <;> apply mem_of_mem_traceOf (i := i) <;> rw [h2] <;> simp [lostTrace]

/-! ## The value `connect` returns -/

theorem lastConn_eq_none {rs : List ConnectResult} (h : ∀ r ∈ rs, r.Conn = none) :
    lastConn rs = none := by
  induction rs with
  | nil => rfl
  | cons r rs ih =>
    have h1 := h r (List.mem_cons_self _ _)
    simp only [lastConn, h1]
    simpa using ih (fun x hx => h x (List.mem_cons_of_mem _ hx))

theorem lastConn_eq_some {rs : List ConnectResult} {c : Conn}
    (hex : ∃ r ∈ rs, r.Conn = some c) (hall : ∀ r ∈ rs, r.Conn = none ∨ r.Conn = some c) :
    lastConn rs = some c := by
  induction rs with
  | nil => obtain ⟨r, hr, -⟩ := hex; simp at hr
  | cons r rs ih =>
    rcases hall r (List.mem_cons_self _ _) with h1 | h1
    · simp only [lastConn, h1]
      obtain ⟨x, hx, hxc⟩ := hex
      rcases List.mem_cons.mp hx with heq | hin
      · rw [heq, h1] at hxc; simp at hxc
      · simpa using ih ⟨x, hin, hxc⟩ (fun y hy => hall y (List.mem_cons_of_mem _ hy))
    · simp [lastConn, h1]

theorem mem_sentResults {r : ConnectResult} {log : List Event} :
    r ∈ sentResults log ↔ ∃ i, Event.send i r ∈ log := by
  unfold sentResults
  rw [List.mem_filterMap]
  constructor
  · rintro ⟨e, he, hs⟩
    cases e <;> simp [Event.sent] at hs
    rename_i i r'
    exact ⟨i, by rw [← hs]; exact he⟩
  · rintro ⟨i, hi⟩
    exact ⟨_, hi, rfl⟩

theorem mem_recvResults {r : ConnectResult} {log : List Event} :
    r ∈ recvResults log ↔ Event.recv r ∈ log := by
  unfold recvResults
  rw [List.mem_filterMap]
  constructor
  · rintro ⟨e, he, hs⟩
    cases e <;> simp [Event.received] at hs
    rw [← hs]; exact he
  · intro hi
    exact ⟨_, hi, rfl⟩

/-- Once the channel is closed every result has been received and every attempt has
returned. -/
theorem Inv.after_close {env : Env} {flag : Bool} {s : State} (hinv : Inv env flag s)
    (hc : s.chClosed = true) :
    s.buf = none ∧ recvResults s.log = sentResults s.log ∧
      (sentResults s.log).length = env.hosts.length ∧
      (∀ i, i < env.hosts.length → s.routines i = RoutinePC.done) ∧
      (∀ i, env.hosts.length ≤ i → s.routines i = RoutinePC.idle) := by
  obtain ⟨hbuf, hall⟩ := hinv.all_done hc
  have hch := hinv.channel
  rw [hbuf] at hch
  simp at hch
  have hpast : pastClose s.mainPc = true := by rw [← hinv.closed]; exact hc
  have hrec := hinv.received
  have hn : receivedCount env s.mainPc = env.hosts.length := by
    cases hpc : s.mainPc <;> rw [hpc] at hpast <;> simp [pastClose, receivedCount] at hpast ⊢
  have hl : launched env s.mainPc = env.hosts.length := by
    cases hpc : s.mainPc <;> rw [hpc] at hpast <;> simp [pastClose, launched] at hpast ⊢
  refine ⟨hbuf, hch.symm, by rw [hch, hrec, hn], hall, fun i hi => ?_⟩
  rw [hinv.idle i, hl]
  exact hi

/-- The attempt that won the compare-and-swap was launched by this call. -/
theorem Inv.winner_lt {env : Env} {flag : Bool} {s : State} (hinv : Inv env flag s)
    {w : Nat} (h : Event.cas w true ∈ s.log) : w < env.hosts.length := by
  apply hinv.live_lt
  intro hidle
  have hr := hinv.routine w
  rw [hidle] at hr
  have hmem : Event.cas w true ∈ traceOf w s.log := mem_traceOf h (by simp [Event.byRoutine])
  simp only [RoutineInv] at hr
  rw [hr] at hmem
  simp at hmem

/-- After the receive loop the variable `conn` of `connect` holds the connection of the
attempt that won the compare-and-swap, and is nil when no attempt won. -/
theorem Inv.lastConn_spec {env : Env} {flag : Bool} {s : State} (hinv : Inv env flag s)
    (hc : s.chClosed = true) :
    ((∀ i, Event.cas i true ∉ s.log) ∧ lastConn (recvResults s.log) = none) ∨
      (∃ w, w < env.hosts.length ∧ Event.cas w true ∈ s.log ∧
        lastConn (recvResults s.log) = some (connOf env w)) := by
  obtain ⟨-, hrs, -, hall, -⟩ := hinv.after_close hc
  rw [hrs]
  by_cases hw : ∃ w, Event.cas w true ∈ s.log
  · right
    obtain ⟨w, hw⟩ := hw
    have hwn := hinv.winner_lt hw
    refine ⟨w, hwn, hw, lastConn_eq_some ?_ ?_⟩
    · refine ⟨⟨some (connOf env w), none⟩, ?_, rfl⟩
      rw [mem_sentResults]
      refine ⟨w, mem_of_mem_traceOf (i := w) ?_⟩
      rw [(hinv.won_facts hw).2.2.2 (hall w hwn)]
      simp
    · intro r hr
      obtain ⟨i, hi⟩ := mem_sentResults.mp hr
      rcases (hinv.send_cases hi).2 with ⟨e, -, h2, -⟩ | ⟨-, h2, h3⟩ | ⟨-, h2, -⟩
      · left; rw [h2]
      · right
        have hiw : Event.cas i true ∈ s.log := by
          apply mem_of_mem_traceOf (i := i)
          rw [h3]
          simp [wonTrace]
        rw [h2, hinv.winUnique i w hiw hw]
      · left; rw [h2]
  · left
    push_neg at hw
    refine ⟨hw, lastConn_eq_none ?_⟩
    intro r hr
    obtain ⟨i, hi⟩ := mem_sentResults.mp hr
    rcases (hinv.send_cases hi).2 with ⟨e, -, h2, -⟩ | ⟨-, h2, h3⟩ | ⟨-, h2, -⟩
    · rw [h2]
    · exfalso
      apply hw i
      apply mem_of_mem_traceOf (i := i)
      rw [h3]
      simp [wonTrace]
    · rw [h2]

/-- The two outcomes of `connect`: the winner's connection with a nil error, or
`(nil, ErrConnectFailed)` when no attempt won. -/
theorem Inv.connect_spec {env : Env} {flag : Bool} {s : State} (hinv : Inv env flag s)
    {conn : Option Conn} {err : Option GoError} (hpc : s.mainPc = MainPC.retConnect conn err) :
    ((∀ i, Event.cas i true ∉ s.log) ∧ conn = none ∧ err = some ErrConnectFailed) ∨
      (∃ w, w < env.hosts.length ∧ Event.cas w true ∈ s.log ∧
        conn = some (connOf env w) ∧ err = none) := by
  have hm := hinv.main
  rw [hpc] at hm
  have hc : s.chClosed = true := by rw [hinv.closed, hpc]; rfl
  obtain ⟨hres, -⟩ := hm
  rcases hinv.lastConn_spec hc with ⟨h1, h2⟩ | ⟨w, h1, h2, h3⟩
  · left
    rw [h2] at hres
    simp [connectResult] at hres
    exact ⟨h1, hres.1, hres.2⟩
  · right
    rw [h3] at hres
    simp [connectResult] at hres
    exact ⟨w, h1, h2, hres.1, hres.2⟩

/-! ## The order of events -/

theorem ordered_init (env : Env) (flag : Bool) : Ordered env (init flag) := by
  constructor <;> simp [init]

theorem ordered_step_routine {env : Env} {flag : Bool} {s s' : State} {j : Nat}
    (hinv : Inv env flag s) (ho : Ordered env s) (h : stepRoutine env s j = some s') :
    Ordered env s' := by
  obtain ⟨pc, e, -, hl, he, -, hc, -, -, hold, hold', -, -⟩ := stepRoutine_frame hinv h
  have hopen := hinv.not_closed_of_pending j hold hold'
  have hrun := (byRoutine_facts he).1
  constructor
  · intro i hi
    rw [hl] at hi
    rcases List.mem_cons.mp hi with heq | hin
    · rw [← heq] at he; simp [Event.byRoutine] at he
    · exact ho.spawnLt i hin
  · intro hm
    rw [hl] at hm
    rcases List.mem_cons.mp hm with heq | hin
    · rw [← heq] at he; simp [Event.byRoutine] at he
    · have := ho.closeLogged hin
      rw [hopen] at this
      simp at this
  · intro post pre hlog
    rw [hl] at hlog
    cases post with
    | nil => simp
    | cons x post' =>
      simp at hlog
      have hin : Event.chanClose ∈ s.log := by rw [hlog.2]; simp
      have := ho.closeLogged hin
      rw [hopen] at this
      simp at this
  · intro post pre c hlog
    rw [hl] at hlog
    cases post with
    | nil =>
      simp at hlog
      rw [hlog.1] at hrun
      simp [Event.isRun] at hrun
    | cons x post' =>
      simp at hlog
      exact ho.closeAfterCancel post' pre c hlog.2

theorem ordered_step_cancel {env : Env} {s s' : State}
    (ho : Ordered env s) (h : stepCancel s = some s') : Ordered env s' := by
  unfold stepCancel at h
  split at h <;> simp at h
  subst h
  constructor
  · intro i hi
    simp at hi
    exact ho.spawnLt i hi
  · intro hm
    simp at hm
    exact ho.closeLogged hm
  · intro post pre hlog
    cases post with
    | nil => simp at hlog
    | cons x post' =>
      simp at hlog
      intro e he
      rcases List.mem_cons.mp he with heq | hin
      · rw [heq, ← hlog.1]; exact ⟨rfl, rfl⟩
      · exact ho.quietAfterClose post' pre hlog.2 e hin
  · intro post pre c hlog
    cases post with
    | nil => simp at hlog
    | cons x post' =>
      simp at hlog
      exact ho.closeAfterCancel post' pre c hlog.2

/-- Adding one event of `Run` that is neither a launch, nor `close(ch)`, nor a `Close`
keeps the order facts. -/
theorem Ordered.cons_main {env : Env} {s s' : State} (ho : Ordered env s) (e : Event)
    (hl : s'.log = e :: s.log) (hc : s.chClosed = true → s'.chClosed = true)
    (h1 : ∀ i, e ≠ Event.spawn i) (h2 : e ≠ Event.chanClose)
    (h3 : ∀ c, e ≠ Event.connClose Closer.run c)
    (h4 : Event.sent e = none ∧ Event.received e = none) :
    Ordered env s' := by
  constructor
  · intro i hi
    rw [hl] at hi
    rcases List.mem_cons.mp hi with heq | hin
    · exact absurd heq.symm (h1 i)
    · exact ho.spawnLt i hin
  · intro hm
    rw [hl] at hm
    rcases List.mem_cons.mp hm with heq | hin
    · exact absurd heq.symm h2
    · exact hc (ho.closeLogged hin)
  · intro post pre hlog
    rw [hl] at hlog
    cases post with
    | nil => simp
    | cons x post' =>
      simp at hlog
      intro y hy
      rcases List.mem_cons.mp hy with heq | hin
      · rw [heq, ← hlog.1]; exact h4
      · exact ho.quietAfterClose post' pre hlog.2 y hin
  · intro post pre c hlog
    rw [hl] at hlog
    cases post with
    | nil => simp at hlog; exact absurd hlog.1 (h3 c)
    | cons x post' =>
      simp at hlog
      exact ho.closeAfterCancel post' pre c hlog.2

theorem ordered_step_main {env : Env} {flag : Bool} {s s' : State}
    (hinv : Inv env flag s) (ho : Ordered env s) (h : stepMain env s = some s') :
    Ordered env s' := by
  have hm := hinv.main
  unfold stepMain at h
  split at h <;> rename_i hpc <;> rw [hpc] at hm <;> simp only [MainInv] at hm
  · rename_i x k
    split at h <;> rename_i hk <;> simp at h <;> subst h
    · constructor
      · intro i hi
        simp at hi
        rcases hi with heq | hin
        · omega
        · exact ho.spawnLt i hin
      · intro hc
        simp at hc
        exact ho.closeLogged hc
      · intro post pre hlog
        cases post with
        | nil => simp at hlog
        | cons y post' =>
          simp at hlog
          intro e he
          rcases List.mem_cons.mp he with heq | hin
          · rw [heq, ← hlog.1]; exact ⟨rfl, rfl⟩
          · exact ho.quietAfterClose post' pre hlog.2 e hin
      · intro post pre c hlog
        cases post with
        | nil => simp at hlog
        | cons y post' =>
          simp at hlog
          exact ho.closeAfterCancel post' pre c hlog.2
    · exact ⟨ho.spawnLt, ho.closeLogged, ho.quietAfterClose, ho.closeAfterCancel⟩
  · simp at h; subst h
    constructor
    · intro i hi
      simp at hi
      exact ho.spawnLt i hi
    · intro _; rfl
    · intro post pre hlog
      cases post with
      | nil => simp
      | cons y post' =>
        simp at hlog
        intro e he
        rcases List.mem_cons.mp he with heq | hin
        · rw [heq, ← hlog.1]; exact ⟨rfl, rfl⟩
        · exact ho.quietAfterClose post' pre hlog.2 e hin
    · intro post pre c hlog
      cases post with
      | nil => simp at hlog
      | cons y post' =>
        simp at hlog
        exact ho.closeAfterCancel post' pre c hlog.2
  · split at h <;> simp at h
    subst h
    have hopen : s.chClosed = false := by rw [hinv.closed, hpc]; rfl
    constructor
    · intro i hi
      simp at hi
      exact ho.spawnLt i hi
    · intro hc
      simp at hc
      exact ho.closeLogged hc
    · intro post pre hlog
      cases post with
      | nil => simp
      | cons y post' =>
        simp at hlog
        have hin : Event.chanClose ∈ s.log := by rw [hlog.2]; simp
        have := ho.closeLogged hin
        rw [hopen] at this
        simp at this
    · intro post pre c hlog
      cases post with
      | nil => simp at hlog
      | cons y post' =>
        simp at hlog
        exact ho.closeAfterCancel post' pre c hlog.2
  · split at h <;> simp at h <;> subst h <;>
      exact ho.cons_main (Event.connectRet _ _) rfl (fun hc => hc) (by simp) (by simp)
        (by simp) ⟨rfl, rfl⟩
  · split at h <;> simp at h <;> subst h
    · exact ho.cons_main (Event.runRet _) rfl (fun hc => hc) (by simp) (by simp) (by simp) ⟨rfl, rfl⟩
    · exact ⟨ho.spawnLt, ho.closeLogged, ho.quietAfterClose, ho.closeAfterCancel⟩
  · split at h <;> simp at h
    subst h
    exact ho.cons_main Event.ctxDone rfl (fun hc => hc) (by simp) (by simp) (by simp) ⟨rfl, rfl⟩
  · obtain ⟨⟨c, hc⟩, -, hcan, -⟩ := hm
    subst hc
    simp at h
    subst h
    have hcancel : Event.cancel ∈ s.log := hinv.cancelLogged.mp hcan
    constructor
    · intro i hi
      simp at hi
      exact ho.spawnLt i hi
    · intro hm'
      simp at hm'
      exact ho.closeLogged hm'
    · intro post pre hlog
      cases post with
      | nil => simp at hlog
      | cons y post' =>
        cases post' with
        | nil => simp at hlog
        | cons z post'' =>
          simp at hlog
          intro e he
          simp at he
          rcases he with heq | heq | hin
          · rw [heq, ← hlog.1]; exact ⟨rfl, rfl⟩
          · rw [heq, ← hlog.2.1]; exact ⟨rfl, rfl⟩
          · exact ho.quietAfterClose post'' pre hlog.2.2 e hin
    · intro post pre d hlog
      cases post with
      | nil => simp at hlog
      | cons y post' =>
        cases post' with
        | nil =>
          simp at hlog
          rw [← hlog.2.2]
          exact hcancel
        | cons z post'' =>
          simp at hlog
          exact ho.closeAfterCancel post'' pre d hlog.2.2
  · simp at h

theorem ordered_exec {env : Env} {flag : Bool} (sched : List Action) :
    ∀ s, Inv env flag s → Ordered env s → Ordered env (exec env s sched) := by
  induction sched with
  | nil => intro s _ ho; exact ho
  | cons a rest ih =>
    intro s hs ho
    unfold exec
    cases hstep : step env s a with
    | none => simpa using ih s hs ho
    | some s' =>
      simp only [Option.getD_some]
      apply ih s' (inv_step hs hstep)
      cases a with
      | main => exact ordered_step_main hs ho hstep
      | routine i => exact ordered_step_routine hs ho hstep
      | cancel => exact ordered_step_cancel ho hstep

/-- Every run maintains the invariant and the order facts. -/
theorem exec_inv (env : Env) (flag : Bool) (sched : List Action) :
    Inv env flag (exec env (init flag) sched) ∧ Ordered env (exec env (init flag) sched) :=
  ⟨inv_exec sched _ (inv_init env flag),
    ordered_exec sched _ (inv_init env flag) (ordered_init env flag)⟩

/-! ## Termination of the race -/

theorem connect_returns (env : Env) (flag : Bool) : ConnectReturns env flag := by
  intro sched
  have hinv := (exec_inv env flag sched).1
  refine ⟨?_, fun hnot => progress_connect hinv hnot⟩
  have h : moves env (init flag) sched + measure env (exec env (init flag) sched) ≤
      measure env (init flag) := moves_le_measure sched (init flag) (inv_init env flag)
  rw [measure_init] at h
  omega

/-! ## Further consequences of the invariant -/

theorem countP_traceOf (p : Event → Bool) (w : Nat) (log : List Event)
    (h : ∀ e ∈ log, p e = true → Event.byRoutine w e = true) :
    log.countP p = (traceOf w log).countP p := by
  unfold traceOf
  rw [List.countP_filter]
  apply List.countP_congr
  intro e he
  simp only [Bool.and_eq_true]
  constructor
  · intro hp; exact ⟨hp, h e he hp⟩
  · intro hp; exact hp.1

theorem filter_traceOf (p : Event → Bool) (w : Nat) (log : List Event)
    (h : ∀ e ∈ log, p e = true → Event.byRoutine w e = true) :
    log.filter p = (traceOf w log).filter p := by
  unfold traceOf
  rw [List.filter_filter]
  apply List.filter_congr
  intro e he
  cases hp : p e with
  | false => simp
  | true => simp [h e he hp]

/-- Every effect of an attempt belongs to an attempt this call launched. -/
theorem Inv.actor_lt {env : Env} {flag : Bool} {s : State} (hinv : Inv env flag s)
    {i : Nat} {e : Event} (h : e ∈ s.log) (hi : Event.byRoutine i e = true) :
    i < env.hosts.length := by
  apply hinv.live_lt
  intro hidle
  have hr := hinv.routine i
  rw [hidle] at hr
  have hmem : e ∈ traceOf i s.log := mem_traceOf h hi
  simp only [RoutineInv] at hr
  rw [hr] at hmem
  simp at hmem

/-- On a Runner whose flag was false, a successful dial that has run to the end implies
that some attempt won the compare-and-swap. -/
theorem Inv.winner_exists {env : Env} {s : State} (hinv : Inv env false s) {i : Nat}
    (hd : s.routines i = RoutinePC.done) (hok : env.dialErr i = none) :
    ∃ w, Event.cas w true ∈ s.log := by
  by_cases hw : Event.cas i true ∈ s.log
  · exact ⟨i, hw⟩
  · have hl := (hinv.done_lost hd hok hw).2
    rcases hinv.setBy (hinv.casSets i false hl) with hf | hex
    · simp at hf
    · exact hex

/-- A `Close` by `Run` happens only on the winner's connection, as the last effect but
one of `Run`. -/
theorem Inv.run_close_facts {env : Env} {flag : Bool} {s : State} (hinv : Inv env flag s)
    {c : Conn} (h : Event.connClose Closer.run c ∈ s.log) :
    s.mainPc = MainPC.runRet (env.closeErr c) ∧ lastConn (recvResults s.log) = some c ∧
      runTrace s.log = [Event.runRet (env.closeErr c), Event.connClose Closer.run c,
        Event.ctxDone, Event.connectRet (some c) none] := by
  have hm := hinv.main
  have hmem : Event.connClose Closer.run c ∈ runTrace s.log :=
    List.mem_filter.mpr ⟨h, rfl⟩
  cases hpc : s.mainPc <;> rw [hpc] at hm <;> simp only [MainInv] at hm
  case runRet err =>
    rcases hm with ⟨-, -, h3⟩ | ⟨d, h1, h2, -, h4⟩
    · rw [h3] at hmem; simp at hmem
    · rw [h4] at hmem
      simp at hmem
      subst hmem
      rw [h2]
      exact ⟨rfl, h1, by rw [h4, h2]⟩
  all_goals (exfalso; simp_all)

/-! ## C1: two or more reachable hosts -/

/-- C1. On a Runner whose flag is false, with at least two attempts whose dial succeeds,
in every interleaving: the race terminates, exactly one attempt `w` wins the
compare-and-swap and it is the only one to send a non-nil `Conn`; when `connect` returns it
returns that connection with a nil error, no `Close` has been called on it, and every
other attempt whose dial succeeded has closed its own connection. -/
theorem race_keeps_exactly_one (env : Env) (sched : List Action) (a b : Nat)
    (conn : Option Conn) (err : Option GoError)
    (ha : a < env.hosts.length) (hb : b < env.hosts.length) (hab : a ≠ b)
    (hda : env.dialErr a = none) (hdb : env.dialErr b = none)
    (hret : (exec env (init false) sched).mainPc = MainPC.retConnect conn err) :
    ConnectReturns env false ∧
    ∃ w, w < env.hosts.length ∧ env.dialErr w = none ∧
      (∀ i, Event.cas i true ∈ (exec env (init false) sched).log ↔ i = w) ∧
      (exec env (init false) sched).log.countP Event.isCasWin = 1 ∧
      Event.send w ⟨some (connOf env w), none⟩ ∈ (exec env (init false) sched).log ∧
      (∀ i r, Event.send i r ∈ (exec env (init false) sched).log → r.Conn ≠ none → i = w) ∧
      conn = some (connOf env w) ∧ err = none ∧
      (∀ e ∈ (exec env (init false) sched).log, Event.closes (connOf env w) e = false) ∧
      (∀ i, i < env.hosts.length → i ≠ w → env.dialErr i = none →
        Event.connClose (Closer.routine i) (connOf env i) ∈ (exec env (init false) sched).log) ∧
      (∃ l, l < env.hosts.length ∧ l ≠ w ∧
        Event.connClose (Closer.routine l) (connOf env l) ∈ (exec env (init false) sched).log) := by
  refine ⟨connect_returns env false, ?_⟩
  have hinv := (exec_inv env false sched).1
  generalize exec env (init false) sched = s at hret hinv
  have hc : s.chClosed = true := by rw [hinv.closed, hret]; rfl
  obtain ⟨-, -, -, hall, -⟩ := hinv.after_close hc
  rcases hinv.connect_spec hret with ⟨hno, -, -⟩ | ⟨w, hw, hcas, hconn, herr⟩
  · obtain ⟨x, hx⟩ := hinv.winner_exists (hall a ha) hda
    exact absurd hx (hno x)
  · obtain ⟨hdw, hnl, hnc, htr⟩ := hinv.won_facts hcas
    have htrace := htr (hall w hw)
    have hlosers : ∀ i, i < env.hosts.length → i ≠ w → env.dialErr i = none →
        Event.connClose (Closer.routine i) (connOf env i) ∈ s.log := by
      intro i hi hiw hdi
      refine (hinv.done_lost (hall i hi) hdi ?_).1
      intro hcon
      exact hiw (hinv.winUnique i w hcon hcas)
    refine ⟨w, hw, hdw, ?_, ?_, ?_, ?_, hconn, herr, ?_, hlosers, ?_⟩
    · intro i
      constructor
      · intro hi; exact hinv.winUnique i w hi hcas
      · intro hi; rw [hi]; exact hcas
    · rw [countP_traceOf Event.isCasWin w s.log, htrace]
      · simp [wonTrace, Event.isCasWin, List.countP_cons]
      · intro e he hp
        cases e <;> simp [Event.isCasWin] at hp
        rename_i i won
        subst hp
        simp [Event.byRoutine, hinv.winUnique i w he hcas]
    · apply mem_of_mem_traceOf (i := w)
      rw [htrace]
      simp
    · intro i r hi hr
      rcases (hinv.send_cases hi).2 with ⟨e, -, h2, -⟩ | ⟨-, -, h3⟩ | ⟨-, h2, -⟩
      · rw [h2] at hr; simp at hr
      · apply hinv.winUnique i w _ hcas
        apply mem_of_mem_traceOf (i := i)
        rw [h3]
        simp [wonTrace]
      · rw [h2] at hr; simp at hr
    · intro e he
      cases e <;> simp only [Event.closes]
      rename_i who d
      simp only [decide_eq_false_iff_not]
      intro hd
      subst hd
      cases who with
      | routine i =>
        obtain ⟨h1, h2⟩ := hinv.close_facts he
        have : i = w := by
          have := congrArg Conn.id h1
          simp [connOf] at this
          exact this.symm
        subst this
        exact hnl h2
      | run =>
        have := (hinv.run_close_facts he).1
        rw [hret] at this
        simp at this
    · by_cases haw : a = w
      · exact ⟨b, hb, fun hbw => hab (haw.trans hbw.symm), hlosers b hb
          (fun hbw => hab (haw.trans hbw.symm)) hdb⟩
      · exact ⟨a, ha, haw, hlosers a ha haw hda⟩

theorem race_keeps_exactly_one_witness :
    (exec envBothUp (init false) schedBothUp).mainPc =
        MainPC.retConnect (some ⟨1, "10.0.0.2:9999"⟩) none ∧
      ConnectReturns envBothUp false ∧
      ∃ w, w < envBothUp.hosts.length ∧ envBothUp.dialErr w = none ∧
        (∀ i, Event.cas i true ∈ (exec envBothUp (init false) schedBothUp).log ↔ i = w) ∧
        (exec envBothUp (init false) schedBothUp).log.countP Event.isCasWin = 1 ∧
        Event.send w ⟨some (connOf envBothUp w), none⟩ ∈
          (exec envBothUp (init false) schedBothUp).log ∧
        (∀ i r, Event.send i r ∈ (exec envBothUp (init false) schedBothUp).log →
          r.Conn ≠ none → i = w) ∧
        some ⟨1, "10.0.0.2:9999"⟩ = some (connOf envBothUp w) ∧ (none : Option GoError) = none ∧
        (∀ e ∈ (exec envBothUp (init false) schedBothUp).log,
          Event.closes (connOf envBothUp w) e = false) ∧
        (∀ i, i < envBothUp.hosts.length → i ≠ w → envBothUp.dialErr i = none →
          Event.connClose (Closer.routine i) (connOf envBothUp i) ∈
            (exec envBothUp (init false) schedBothUp).log) ∧
        (∃ l, l < envBothUp.hosts.length ∧ l ≠ w ∧
          Event.connClose (Closer.routine l) (connOf envBothUp l) ∈
            (exec envBothUp (init false) schedBothUp).log) :=
  ⟨by decide, race_keeps_exactly_one envBothUp schedBothUp 0 1 _ _ (by decide) (by decide)
    (by decide) rfl rfl (by decide)⟩

/-! ## C2: no reachable host -/

/-- When every dial of this call fails, no compare-and-swap is ever executed. -/
theorem Inv.no_cas_of_all_fail {env : Env} {flag : Bool} {s : State} (hinv : Inv env flag s)
    (hfail : ∀ i, i < env.hosts.length → env.dialErr i ≠ none) (i : Nat) (b : Bool) :
    Event.cas i b ∉ s.log := by
  intro h
  have hi : i < env.hosts.length := hinv.actor_lt h (by simp [Event.byRoutine])
  cases b with
  | true => exact hfail i hi (hinv.won_facts h).1
  | false => exact hfail i hi (hinv.lost_facts h).1

/-- C2. When every dial fails (in particular for the empty host list), for every state of
the flag and in every interleaving: the race terminates, the flag keeps its value, no
successful dial is recorded, no copy loop is started, no `Close` is called, no result
carries a `Conn`, and when `connect` returns it returns `(nil, ErrConnectFailed)`.  For the
empty list no attempt is ever launched and nothing is ever received, and three steps of
`connect` alone (leaving the launch loop, `close(ch)`, `return`) reach the return. -/
theorem unreachable_hosts_fail (env : Env) (flag : Bool) (sched : List Action)
    (hfail : ∀ i, i < env.hosts.length → env.dialErr i ≠ none) :
    ConnectReturns env flag ∧
    (exec env (init flag) sched).connected = flag ∧
    (∀ i addr, Event.dial i addr true ∉ (exec env (init flag) sched).log) ∧
    (∀ e ∈ (exec env (init flag) sched).log,
      Event.isPipe e = false ∧ Event.isConnClose e = false) ∧
    (∀ i r, Event.send i r ∈ (exec env (init flag) sched).log → r.Conn = none) ∧
    (∀ conn err, (exec env (init flag) sched).mainPc = MainPC.retConnect conn err →
      conn = none ∧ err = some ErrConnectFailed) ∧
    (env.hosts = [] →
      (∀ i, Event.spawn i ∉ (exec env (init flag) sched).log) ∧
      (∀ r, Event.recv r ∉ (exec env (init flag) sched).log) ∧
      (exec env (init flag) [Action.main, Action.main, Action.main]).mainPc =
        MainPC.retConnect none (some ErrConnectFailed) ∧
      (exec env (init flag) [Action.main, Action.main, Action.main]).log =
        [Event.connectRet none (some ErrConnectFailed), Event.chanClose]) := by
  refine ⟨connect_returns env flag, ?_⟩
  obtain ⟨hinv, hord⟩ := exec_inv env flag sched
  generalize exec env (init flag) sched = s at hinv hord
  have hcas := hinv.no_cas_of_all_fail hfail
  refine ⟨?_, ?_, ?_, ?_, ?_, ?_⟩
  · cases flag with
    | true => exact hinv.flagKept rfl
    | false =>
      cases hc : s.connected with
      | false => rfl
      | true =>
        rcases hinv.setBy hc with hf | ⟨i, hi⟩
        · simp at hf
        · exact absurd hi (hcas i true)
  · intro i addr h
    have hi : i < env.hosts.length := hinv.actor_lt h (by simp [Event.byRoutine])
    exact hfail i hi ((hinv.dial_facts h).2.mp rfl)
  · intro e he
    constructor
    · cases e <;> simp only [Event.isPipe]
      rename_i i dst src
      exact absurd (hinv.pipe_facts he).1 (hcas i true)
    · cases e <;> simp only [Event.isConnClose]
      rename_i who c
      cases who with
      | routine i => exact absurd (hinv.close_facts he).2 (hcas i false)
      | run =>
        obtain ⟨hpc, hlast, -⟩ := hinv.run_close_facts he
        have hc : s.chClosed = true := by rw [hinv.closed, hpc]; rfl
        rcases hinv.lastConn_spec hc with ⟨-, h2⟩ | ⟨w, -, h2, -⟩
        · rw [h2] at hlast; simp at hlast
        · exact absurd h2 (hcas w true)
  · intro i r hi
    rcases (hinv.send_cases hi).2 with ⟨e, -, h2, -⟩ | ⟨-, -, h3⟩ | ⟨-, h2, -⟩
    · rw [h2]
    · exfalso
      apply hcas i true
      apply mem_of_mem_traceOf (i := i)
      rw [h3]
      simp [wonTrace]
    · rw [h2]
  · intro conn err hret
    rcases hinv.connect_spec hret with ⟨-, h1, h2⟩ | ⟨w, -, h1, -⟩
    · exact ⟨h1, h2⟩
    · exact absurd h1 (hcas w true)
  · intro hnil
    refine ⟨?_, ?_, ?_, ?_⟩
    · intro i hi
      have := hord.spawnLt i hi
      simp [hnil] at this
    · intro r hr
      have hmem := mem_recvResults.mpr hr
      have hlen := hinv.received
      have hle : receivedCount env s.mainPc ≤ env.hosts.length := by
        cases s.mainPc <;> simp [receivedCount]
      rw [hnil] at hle
      simp at hle
      rw [hle] at hlen
      rw [List.length_eq_zero.mp hlen] at hmem
      simp at hmem
    · simp [exec, step, stepMain, init, hnil]
    · simp [exec, step, stepMain, init, hnil]

theorem unreachable_hosts_fail_witness :
    (∀ i, i < envNoneUp.hosts.length → envNoneUp.dialErr i ≠ none) ∧
      (exec envNoneUp (init false) (schedNoneUp.take 11)).mainPc =
        MainPC.retConnect none (some ErrConnectFailed) ∧
      (exec envNoneUp (init false) (schedNoneUp.take 11)).connected = false ∧
      (∀ conn err,
        (exec envNoneUp (init false) (schedNoneUp.take 11)).mainPc = MainPC.retConnect conn err →
        conn = none ∧ err = some ErrConnectFailed) :=
  ⟨fun i _ => by simp [envNoneUp], by decide,
    (unreachable_hosts_fail envNoneUp false (schedNoneUp.take 11)
      (fun i _ => by simp [envNoneUp])).2.1,
    (unreachable_hosts_fail envNoneUp false (schedNoneUp.take 11)
      (fun i _ => by simp [envNoneUp])).2.2.2.2.2.1⟩

/-! ## C3: exactly one reachable host -/

/-- C3. On a Runner whose flag is false, when the dial of the host at position `w`
succeeds and every other dial fails, in every interleaving: the race terminates, and when
`connect` returns it returns a nil error and the connection that attempt `w` dialled to
`net.JoinHostPort(hosts[w], port)`; attempt `w` is the one that won the compare-and-swap. -/
theorem single_reachable_host_wins (env : Env) (sched : List Action) (w : Nat)
    (conn : Option Conn) (err : Option GoError)
    (hw : w < env.hosts.length) (hdw : env.dialErr w = none)
    (hothers : ∀ i, i < env.hosts.length → i ≠ w → env.dialErr i ≠ none)
    (hret : (exec env (init false) sched).mainPc = MainPC.retConnect conn err) :
    ConnectReturns env false ∧
    conn = some ⟨w, JoinHostPort (env.hosts.get ⟨w, hw⟩) env.port⟩ ∧ err = none ∧
    (∀ i, Event.cas i true ∈ (exec env (init false) sched).log ↔ i = w) := by
  refine ⟨connect_returns env false, ?_⟩
  have hinv := (exec_inv env false sched).1
  generalize exec env (init false) sched = s at hret hinv
  have hc : s.chClosed = true := by rw [hinv.closed, hret]; rfl
  obtain ⟨-, -, -, hall, -⟩ := hinv.after_close hc
  have haddr : connOf env w = ⟨w, JoinHostPort (env.hosts.get ⟨w, hw⟩) env.port⟩ := by
    simp [connOf, addrOf, hostAt, List.getElem?_eq_getElem hw]
  rcases hinv.connect_spec hret with ⟨hno, -, -⟩ | ⟨x, hx, hcas, hconn, herr⟩
  · obtain ⟨x, hx⟩ := hinv.winner_exists (hall w hw) hdw
    exact absurd hx (hno x)
  · have hxw : x = w := by
      by_contra hne
      exact hothers x hx hne (hinv.won_facts hcas).1
    subst hxw
    refine ⟨by rw [hconn, haddr], herr, fun i => ⟨fun hi => hinv.winUnique i x hi hcas, ?_⟩⟩
    intro hi
    rw [hi]
    exact hcas

theorem single_reachable_host_wins_witness :
    (exec envOneUp (init false) (schedOneUp.take 15)).mainPc =
        MainPC.retConnect (some ⟨1, "127.0.0.1:9999"⟩) none ∧
      ConnectReturns envOneUp false ∧
      some (Conn.mk 1 "127.0.0.1:9999") =
        some ⟨1, JoinHostPort (envOneUp.hosts.get ⟨1, by decide⟩) envOneUp.port⟩ ∧
      (none : Option GoError) = none ∧
      (∀ i, Event.cas i true ∈ (exec envOneUp (init false) (schedOneUp.take 15)).log ↔ i = 1) :=
  ⟨by decide, single_reachable_host_wins envOneUp (schedOneUp.take 15) 1 _ _ (by decide) rfl
    (fun i _ hi => by simp [envOneUp, hi]) (by decide)⟩

/-! ## C4: one result per attempt -/

/-- C5, the claim as stated fails: in the session `schedBothUp` the straggler (attempt 0)
sends the empty `ConnectResult{}` of line 102, in which neither field is populated. -/
theorem straggler_sends_empty_result :
    Event.send 0 ⟨none, none⟩ ∈ (exec envBothUp (init false) schedBothUp).log ∧
      ¬ ConnectResult.exactlyOnePopulated ⟨none, none⟩ :=
  ⟨by decide, by simp [ConnectResult.exactlyOnePopulated]⟩

/-- C5, amended. Every result an attempt sends has one of three shapes, decided by the
path the attempt took: `{nil, err}` with the dial error when the dial failed, `{conn, nil}`
with the dialled connection when the attempt won the compare-and-swap, and the empty `{}`
when the dial succeeded and the compare-and-swap was lost.  So at most one field is
populated, and exactly one unless the attempt lost the compare-and-swap. -/
theorem result_has_one_of_three_shapes (env : Env) (flag : Bool) (sched : List Action)
    (i : Nat) (r : ConnectResult)
    (h : Event.send i r ∈ (exec env (init flag) sched).log) :
    ((∃ e, env.dialErr i = some e ∧ r = ⟨none, some e⟩) ∨
      (env.dialErr i = none ∧ Event.cas i true ∈ (exec env (init flag) sched).log ∧
        r = ⟨some (connOf env i), none⟩) ∨
      (env.dialErr i = none ∧ Event.cas i false ∈ (exec env (init flag) sched).log ∧
        r = ⟨none, none⟩)) ∧
    ¬ (r.Conn ≠ none ∧ r.Error ≠ none) ∧
    (r.exactlyOnePopulated ↔ Event.cas i false ∉ (exec env (init flag) sched).log) := by
  have hinv := (exec_inv env flag sched).1
  generalize exec env (init flag) sched = s at h hinv
  rcases (hinv.send_cases h).2 with ⟨e, h1, h2, h3⟩ | ⟨h1, h2, h3⟩ | ⟨h1, h2, h3⟩
  · refine ⟨Or.inl ⟨e, h1, h2⟩, by simp [h2], ?_⟩
    have hnl : Event.cas i false ∉ s.log := by
      intro hl
      have := hinv.lost_facts hl
      rw [h1] at this
      simp at this
    simp [ConnectResult.exactlyOnePopulated, h2, hnl]
  · have hw : Event.cas i true ∈ s.log := by
      apply mem_of_mem_traceOf (i := i)
      rw [h3]
      simp [wonTrace]
    refine ⟨Or.inr (Or.inl ⟨h1, hw, h2⟩), by simp [h2], ?_⟩
    simp [ConnectResult.exactlyOnePopulated, h2, (hinv.won_facts hw).2.1]
  · have hl : Event.cas i false ∈ s.log := by
      apply mem_of_mem_traceOf (i := i)
      rw [h3]
      simp [lostTrace]
    refine ⟨Or.inr (Or.inr ⟨h1, hl, h2⟩), by simp [h2], ?_⟩
    simp [ConnectResult.exactlyOnePopulated, h2, hl]

theorem result_has_one_of_three_shapes_witness :
    Event.send 1 ⟨some ⟨1, "10.0.0.2:9999"⟩, none⟩ ∈
        (exec envBothUp (init false) schedBothUp).log ∧
      (((∃ e, envBothUp.dialErr 1 = some e ∧
            (⟨some ⟨1, "10.0.0.2:9999"⟩, none⟩ : ConnectResult) = ⟨none, some e⟩) ∨
          (envBothUp.dialErr 1 = none ∧
            Event.cas 1 true ∈ (exec envBothUp (init false) schedBothUp).log ∧
            (⟨some ⟨1, "10.0.0.2:9999"⟩, none⟩ : ConnectResult) =
              ⟨some (connOf envBothUp 1), none⟩) ∨
          (envBothUp.dialErr 1 = none ∧
            Event.cas 1 false ∈ (exec envBothUp (init false) schedBothUp).log ∧
            (⟨some ⟨1, "10.0.0.2:9999"⟩, none⟩ : ConnectResult) = ⟨none, none⟩)) ∧
        ¬ ((⟨some ⟨1, "10.0.0.2:9999"⟩, none⟩ : ConnectResult).Conn ≠ none ∧
          (⟨some ⟨1, "10.0.0.2:9999"⟩, none⟩ : ConnectResult).Error ≠ none) ∧
        ((⟨some ⟨1, "10.0.0.2:9999"⟩, none⟩ : ConnectResult).exactlyOnePopulated ↔
          Event.cas 1 false ∉ (exec envBothUp (init false) schedBothUp).log)) :=
  ⟨by decide, result_has_one_of_three_shapes envBothUp false schedBothUp 1 _ (by decide)⟩

/-! ## Runs can be completed -/

theorem exec_append (env : Env) (xs ys : List Action) :
    ∀ s, exec env s (xs ++ ys) = exec env (exec env s xs) ys := by
  induction xs with
  | nil => intro s; rfl
  | cons a rest ih =>
    intro s
    simp only [List.cons_append, exec]
    exact ih _

/-- A step only adds events to the log. -/
theorem step_log_mem {env : Env} {s s' : State} {a : Action} (h : step env s a = some s')
    {e : Event} (he : e ∈ s.log) : e ∈ s'.log := by
  cases a with
  | main =>
    simp only [step] at h
    unfold stepMain at h
    split at h
    all_goals (try split at h)
    all_goals (try (simp at h))
    all_goals (try (subst h))
    all_goals (simp [he])
  | routine i =>
    simp only [step] at h
    unfold stepRoutine at h
    simp only [sendResult] at h
    split at h
    all_goals (try split at h)
    all_goals (try split at h)
    all_goals (try (simp at h))
    all_goals (try (subst h))
    all_goals (simp [advance, he])
  | cancel =>
    simp only [step] at h
    unfold stepCancel at h
    split at h <;> simp at h
    subst h
    simp [he]

theorem exec_log_mem {env : Env} {e : Event} (more : List Action) :
    ∀ s, e ∈ s.log → e ∈ (exec env s more).log := by
  induction more with
  | nil => intro s he; exact he
  | cons a rest ih =>
    intro s he
    unfold exec
    apply ih
    cases hstep : step env s a with
    | none => simpa using he
    | some s' => simpa using step_log_mem hstep he

/-- From every state of a run, the attempts and `connect` alone can bring `connect` to its
return. -/
theorem can_return {env : Env} {flag : Bool} :
    ∀ (m : Nat) (s : State), measure env s ≤ m → Inv env flag s →
      ∃ more, Action.cancel ∉ more ∧ connectReturned (exec env s more).mainPc = true := by
  intro m
  induction m with
  | zero =>
    intro s hm hinv
    cases hret : connectReturned s.mainPc with
    | true => exact ⟨[], by simp, hret⟩
    | false =>
      exfalso
      rcases progress_connect hinv hret with h | ⟨i, -, h⟩
      · obtain ⟨s', hs'⟩ := Option.isSome_iff_exists.mp h
        have := measure_step_main hinv hs'
        omega
      · obtain ⟨s', hs'⟩ := Option.isSome_iff_exists.mp h
        have := measure_step_routine hinv hs'
        omega
  | succ m ih =>
    intro s hm hinv
    cases hret : connectReturned s.mainPc with
    | true => exact ⟨[], by simp, hret⟩
    | false =>
      rcases progress_connect hinv hret with h | ⟨i, -, h⟩
      · obtain ⟨s', hs'⟩ := Option.isSome_iff_exists.mp h
        have hlt := measure_step_main hinv hs'
        obtain ⟨more, hnc, hmore⟩ := ih s' (by omega) (inv_step_main hinv hs')
        refine ⟨Action.main :: more, by simp [hnc], ?_⟩
        simp only [exec, step, hs', Option.getD_some]
        exact hmore
      · obtain ⟨s', hs'⟩ := Option.isSome_iff_exists.mp h
        have hlt := measure_step_routine hinv hs'
        obtain ⟨more, hnc, hmore⟩ := ih s' (by omega) (inv_step_routine hinv hs')
        refine ⟨Action.routine i :: more, by simp [hnc], ?_⟩
        simp only [exec, step, hs', Option.getD_some]
        exact hmore

/-- From every state of a run, `Run` can be brought to its return, with the help of the
cancellation when `connect` succeeded. -/
theorem can_finish {env : Env} {flag : Bool} :
    ∀ (m : Nat) (s : State), measure env s ≤ m → Inv env flag s →
      ∃ more, runReturned (exec env s more).mainPc = true := by
  intro m
  induction m with
  | zero =>
    intro s hm hinv
    cases hrun : runReturned s.mainPc with
    | true => exact ⟨[], hrun⟩
    | false =>
      exfalso
      cases hret : connectReturned s.mainPc with
      | false =>
        rcases progress_connect hinv hret with h | ⟨i, -, h⟩
        · obtain ⟨s', hs'⟩ := Option.isSome_iff_exists.mp h
          have := measure_step_main hinv hs'
          omega
        · obtain ⟨s', hs'⟩ := Option.isSome_iff_exists.mp h
          have := measure_step_routine hinv hs'
          omega
      | true =>
        rcases progress_run hinv hret hrun with h | ⟨-, -, h⟩
        · obtain ⟨s', hs'⟩ := Option.isSome_iff_exists.mp h
          have := measure_step_main hinv hs'
          omega
        · obtain ⟨s', hs'⟩ := Option.isSome_iff_exists.mp h
          have : measure env s' < measure env s := measure_step_cancel hs'
          omega
  | succ m ih =>
    intro s hm hinv
    cases hrun : runReturned s.mainPc with
    | true => exact ⟨[], hrun⟩
    | false =>
      have hstep : ∃ a s', step env s a = some s' := by
        cases hret : connectReturned s.mainPc with
        | false =>
          rcases progress_connect hinv hret with h | ⟨i, -, h⟩
          · obtain ⟨s', hs'⟩ := Option.isSome_iff_exists.mp h
            exact ⟨Action.main, s', hs'⟩
          · obtain ⟨s', hs'⟩ := Option.isSome_iff_exists.mp h
            exact ⟨Action.routine i, s', hs'⟩
        | true =>
          rcases progress_run hinv hret hrun with h | ⟨-, -, h⟩
          · obtain ⟨s', hs'⟩ := Option.isSome_iff_exists.mp h
            exact ⟨Action.main, s', hs'⟩
          · obtain ⟨s', hs'⟩ := Option.isSome_iff_exists.mp h
            exact ⟨Action.cancel, s', hs'⟩
      obtain ⟨a, s', hs'⟩ := hstep
      have hlt := measure_step hinv hs'
      obtain ⟨more, hmore⟩ := ih s' (by omega) (inv_step hinv hs')
      refine ⟨a :: more, ?_⟩
      simp only [exec, hs', Option.getD_some]
      exact hmore

/-- What `Run` has done when it has returned in a session in which attempt `w` won the
compare-and-swap. -/
theorem Inv.run_result_of_winner {env : Env} {flag : Bool} {s : State}
    (hinv : Inv env flag s) {w : Nat} {r : Option GoError}
    (hwon : Event.cas w true ∈ s.log) (hret : s.mainPc = MainPC.runRet r) :
    r = env.closeErr (connOf env w) ∧
      Event.cancel ∈ s.log ∧
      runTrace s.log = [Event.runRet r, Event.connClose Closer.run (connOf env w),
        Event.ctxDone, Event.connectRet (some (connOf env w)) none] ∧
      s.log.filter (Event.closes (connOf env w)) =
        [Event.connClose Closer.run (connOf env w)] := by
  have hm := hinv.main
  rw [hret] at hm
  have hc : s.chClosed = true := by rw [hinv.closed, hret]; rfl
  have hlast : lastConn (recvResults s.log) = some (connOf env w) := by
    rcases hinv.lastConn_spec hc with ⟨hno, -⟩ | ⟨x, -, hx, h⟩
    · exact absurd hwon (hno w)
    · rw [h, hinv.winUnique x w hx hwon]
  rcases hm with ⟨h1, -, -⟩ | ⟨c, h1, h2, hcan, h4⟩
  · rw [hlast] at h1; simp at h1
  · have hcw : c = connOf env w := by
      rw [hlast] at h1
      simpa using h1.symm
    subst hcw
    refine ⟨h2, hinv.cancelLogged.mp hcan, h4, ?_⟩
    have hall : ∀ e ∈ s.log, Event.closes (connOf env w) e = true → Event.isRun e = true := by
      intro e he hp
      cases e <;> simp [Event.closes] at hp
      rename_i who d
      subst hp
      cases who with
      | routine i =>
        exfalso
        obtain ⟨hid, hl⟩ := hinv.close_facts he
        have hiw : i = w := by
          have := congrArg Conn.id hid
          simp [connOf] at this
          exact this.symm
        subst hiw
        exact (hinv.won_facts hwon).2.1 hl
      | run => rfl
    have hfil : s.log.filter (Event.closes (connOf env w)) =
        (runTrace s.log).filter (Event.closes (connOf env w)) := by
      unfold runTrace
      rw [List.filter_filter]
      apply List.filter_congr
      intro e he
      cases hp : Event.closes (connOf env w) e with
      | false => simp
      | true => simp [hall e he hp]
    rw [hfil, h4]
    simp [Event.closes, List.filter_cons]

/-! ## C6 and C8: what `main` does with the value `Run` returns -/

theorem errorsIs_sentinel (err : GoError) :
    errorsIs ErrConnectFailed err = true ↔ err = ErrConnectFailed := by
  simp [errorsIs, ErrConnectFailed, eq_comm]

theorem run_returns (env : Env) (flag : Bool) : RunReturns env flag := by
  intro sched
  have hinv := (exec_inv env flag sched).1
  refine ⟨(connect_returns env flag sched).1, fun hnot => ?_⟩
  cases hret : connectReturned (exec env (init flag) sched).mainPc with
  | false =>
    rcases progress_connect hinv hret with h | h
    · exact Or.inl h
    · exact Or.inr (Or.inl h)
  | true =>
    rcases progress_run hinv hret hnot with h | h
    · exact Or.inl h
    · exact Or.inr (Or.inr h)

/-- C6, the claim as stated fails: in the session `schedCloseFails` a connection is won,
the context is cancelled, `Close` on the winning connection returns an error, `Run` returns
that error and `main` panics with it. -/
theorem close_error_makes_main_panic :
    Event.cas 0 true ∈ (exec envCloseFails (init false) schedCloseFails).log ∧
      Event.cancel ∈ (exec envCloseFails (init false) schedCloseFails).log ∧
      Event.connClose Closer.run ⟨0, "127.0.0.1:9999"⟩ ∈
        (exec envCloseFails (init false) schedCloseFails).log ∧
      envCloseFails.closeErr ⟨0, "127.0.0.1:9999"⟩ = some (GoError.leaf 9) ∧
      (exec envCloseFails (init false) schedCloseFails).mainPc =
        MainPC.runRet (some (GoError.leaf 9)) ∧
      mainAfterRun (some (GoError.leaf 9)) = ⟨[], Exit.panicked (GoError.leaf 9)⟩ ∧
      main ["nc-broker", "9999", "127.0.0.1"] (fun _ _ => some (GoError.leaf 9)) =
        ⟨[], Exit.panicked (GoError.leaf 9)⟩ := by
  decide

/-- C6, amended. In every session in which an attempt `w` has won the compare-and-swap and
the context has been cancelled: `Run` cannot hang (it or an attempt can move until it has
returned, and the run can be completed to its return); when it has returned it has called
`Close` exactly once on the winning connection, nobody else has closed that connection,
and it has returned exactly what `Close` returned.  On nil `main` then returns normally;
on an error other than `ErrConnectFailed` `main` panics with that error. -/
theorem close_result_decides_exit (env : Env) (flag : Bool) (sched : List Action) (w : Nat)
    (hwon : Event.cas w true ∈ (exec env (init flag) sched).log)
    (hcancel : Event.cancel ∈ (exec env (init flag) sched).log) :
    RunReturns env flag ∧
    (runReturned (exec env (init flag) sched).mainPc = false →
      (stepMain env (exec env (init flag) sched)).isSome = true ∨
        ∃ i, i < env.hosts.length ∧
          (stepRoutine env (exec env (init flag) sched) i).isSome = true) ∧
    (∃ more, (exec env (init flag) (sched ++ more)).mainPc =
      MainPC.runRet (env.closeErr (connOf env w))) ∧
    (∀ r, (exec env (init flag) sched).mainPc = MainPC.runRet r →
      r = env.closeErr (connOf env w) ∧
      runTrace (exec env (init flag) sched).log =
        [Event.runRet r, Event.connClose Closer.run (connOf env w), Event.ctxDone,
          Event.connectRet (some (connOf env w)) none] ∧
      (exec env (init flag) sched).log.filter (Event.closes (connOf env w)) =
        [Event.connClose Closer.run (connOf env w)]) ∧
    (env.closeErr (connOf env w) = none →
      mainAfterRun (env.closeErr (connOf env w)) = ⟨[], Exit.returned⟩) ∧
    (∀ e, env.closeErr (connOf env w) = some e → e ≠ ErrConnectFailed →
      mainAfterRun (env.closeErr (connOf env w)) = ⟨[], Exit.panicked e⟩) := by
  refine ⟨run_returns env flag, ?_, ?_, ?_, ?_, ?_⟩
  · intro hnot
    have hinv := (exec_inv env flag sched).1
    generalize exec env (init flag) sched = s at hcancel hnot hinv
    have hcan : s.cancelled = true := hinv.cancelLogged.mpr hcancel
    cases hret : connectReturned s.mainPc with
    | false => exact progress_connect hinv hret
    | true =>
      rcases progress_run hinv hret hnot with h | ⟨-, h, -⟩
      · exact Or.inl h
      · rw [hcan] at h; simp at h
  · have hinv := (exec_inv env flag sched).1
    obtain ⟨more, hmore⟩ := can_finish (measure env (exec env (init flag) sched))
      (exec env (init flag) sched) (Nat.le_refl _) hinv
    refine ⟨more, ?_⟩
    have hinv2 := (exec_inv env flag (sched ++ more)).1
    have hwon2 : Event.cas w true ∈ (exec env (init flag) (sched ++ more)).log := by
      rw [exec_append]
      exact exec_log_mem more _ hwon
    rw [← exec_append] at hmore
    generalize exec env (init flag) (sched ++ more) = s2 at hmore hinv2 hwon2
    cases hpc : s2.mainPc <;> rw [hpc] at hmore <;> simp [runReturned] at hmore
    rename_i r
    rw [(hinv2.run_result_of_winner hwon2 hpc).1]
  · intro r hret
    have hinv := (exec_inv env flag sched).1
    obtain ⟨h1, -, h3, h4⟩ := hinv.run_result_of_winner hwon hret
    exact ⟨h1, h3, h4⟩
  · intro hr
    rw [hr]
    rfl
  · intro e hr hne
    rw [hr]
    have : errorsIs ErrConnectFailed e = false := by
      cases h : errorsIs ErrConnectFailed e with
      | false => rfl
      | true => exact absurd ((errorsIs_sentinel e).mp h) hne
    simp [mainAfterRun, this]

theorem close_result_decides_exit_witness :
    Event.cas 0 true ∈ (exec envCloseFails (init false) schedCloseFails).log ∧
      Event.cancel ∈ (exec envCloseFails (init false) schedCloseFails).log ∧
      (exec envCloseFails (init false) schedCloseFails).mainPc =
        MainPC.runRet (some (GoError.leaf 9)) ∧
      (some (GoError.leaf 9) = envCloseFails.closeErr (connOf envCloseFails 0) ∧
        runTrace (exec envCloseFails (init false) schedCloseFails).log =
          [Event.runRet (some (GoError.leaf 9)),
            Event.connClose Closer.run (connOf envCloseFails 0), Event.ctxDone,
            Event.connectRet (some (connOf envCloseFails 0)) none] ∧
        (exec envCloseFails (init false) schedCloseFails).log.filter
            (Event.closes (connOf envCloseFails 0)) =
          [Event.connClose Closer.run (connOf envCloseFails 0)]) ∧
      mainAfterRun (envCloseFails.closeErr (connOf envCloseFails 0)) =
        ⟨[], Exit.panicked (GoError.leaf 9)⟩ :=
  ⟨by decide, by decide, by decide,
    (close_result_decides_exit envCloseFails false schedCloseFails 0 (by decide)
      (by decide)).2.2.2.1 _ (by decide),
    (close_result_decides_exit envCloseFails false schedCloseFails 0 (by decide)
      (by decide)).2.2.2.2.2 (GoError.leaf 9) rfl (by decide)⟩

/-- C8. For every argument vector with at least three entries, `main` calls `Run` with
`port = args[1]` and `hosts = args[2:]` and ends by the value returned: on nil it returns
normally and writes nothing; on `ErrConnectFailed` it writes the single line
`Host(s) unavailable` and exits with status 1; on every other error it panics with that
error and writes nothing.  That line is then the only one on standard error: in every
session of `Run` on the fresh Runner of `main` that returned `ErrConnectFailed` (`Close`
never returning that sentinel), no attempt has written anything. -/
theorem main_exit_by_run_result (args : List String)
    (run : String → List String → Option GoError) (h : 3 ≤ args.length) :
    (run (args.getD 1 "") (args.drop 2) = none → main args run = ⟨[], Exit.returned⟩) ∧
    (run (args.getD 1 "") (args.drop 2) = some ErrConnectFailed →
      main args run = ⟨["Host(s) unavailable\n"], Exit.exit 1⟩) ∧
    (∀ e, run (args.getD 1 "") (args.drop 2) = some e → e ≠ ErrConnectFailed →
      main args run = ⟨[], Exit.panicked e⟩ ∧
        "Host(s) unavailable\n" ∉ (main args run).stderr) ∧
    (∀ (env : Env) (sched : List Action),
      env.port = args.getD 1 "" → env.hosts = args.drop 2 →
      (∀ c, env.closeErr c ≠ some ErrConnectFailed) →
      (exec env (init false) sched).mainPc = MainPC.runRet (some ErrConnectFailed) →
      ∀ i line, Event.print i line ∉ (exec env (init false) sched).log) := by
  have hlt : ¬ args.length < 3 := by omega
  refine ⟨?_, ?_, ?_, ?_⟩
  · intro hr
    unfold main
    rw [if_neg hlt, hr]
    rfl
  · intro hr
    unfold main
    rw [if_neg hlt, hr]
    simp [mainAfterRun, (errorsIs_sentinel ErrConnectFailed).mpr rfl]
  · intro e hr hne
    have : errorsIs ErrConnectFailed e = false := by
      cases h : errorsIs ErrConnectFailed e with
      | false => rfl
      | true => exact absurd ((errorsIs_sentinel e).mp h) hne
    unfold main
    rw [if_neg hlt, hr]
    simp [mainAfterRun, this]
  · intro env sched _ _ hclose hret i line hprint
    have hinv := (exec_inv env false sched).1
    generalize exec env (init false) sched = s at hret hprint hinv
    have hm := hinv.main
    rw [hret] at hm
    have hc : s.chClosed = true := by rw [hinv.closed, hret]; rfl
    have hcas := (hinv.print_facts hprint).1
    rcases hm with ⟨h1, -, -⟩ | ⟨c, -, h2, -, -⟩
    · rcases hinv.lastConn_spec hc with ⟨hno, -⟩ | ⟨w, -, -, hw⟩
      · exact hno i hcas
      · rw [h1] at hw; simp at hw
    · exact hclose c h2.symm

theorem main_exit_by_run_result_witness :
    3 ≤ ["nc-broker", "9999", "10.255.255.1"].length ∧
      main ["nc-broker", "9999", "10.255.255.1"] (fun _ _ => some ErrConnectFailed) =
        ⟨["Host(s) unavailable\n"], Exit.exit 1⟩ :=
  ⟨by decide,
    (main_exit_by_run_result ["nc-broker", "9999", "10.255.255.1"]
      (fun _ _ => some ErrConnectFailed) (by decide)).2.1 rfl⟩

/-! ## C7: `Run` -/

theorem filter_runTrace (p : Event → Bool) (log : List Event)
    (h : ∀ e ∈ log, p e = true → Event.isRun e = true) :
    log.filter p = (runTrace log).filter p := by
  unfold runTrace
  rw [List.filter_filter]
  apply List.filter_congr
  intro e he
  cases hp : p e with
  | false => simp
  | true => simp [h e he hp]

/-- C7. For every port, host list, network behaviour and state of the flag, in every
interleaving in which `Run` has returned `r`, one of two things happened.  Either `connect`
failed: then no attempt won, `r` is `ErrConnectFailed`, `Run` did nothing between the
return of `connect` and its own return (it neither passed `<-ctx.Done()` nor called
`Close`), and on a Runner whose flag was false no `Close` was called by anybody.  Or
`connect` returned the winner's connection: then `Run` passed `<-ctx.Done()`, called `Close`
on that connection and returned what `Close` returned, in this order; this is the only
`Close` ever called on that connection; and every `Close` by `Run` comes after the
cancellation.  `Run` cannot hang except on the cancellation, and the return after a failed
`connect` is a step that does not depend on the cancellation. -/
theorem run_returns_connect_error_or_close_result (env : Env) (flag : Bool)
    (sched : List Action) (r : Option GoError)
    (hret : (exec env (init flag) sched).mainPc = MainPC.runRet r) :
    RunReturns env flag ∧
    (∀ s conn e, s.mainPc = MainPC.retConnect conn (some e) →
      stepMain env s = some { s with mainPc := MainPC.runRet (some e),
                                     log := Event.runRet (some e) :: s.log }) ∧
    ((r = some ErrConnectFailed ∧
        (∀ i, Event.cas i true ∉ (exec env (init flag) sched).log) ∧
        runTrace (exec env (init flag) sched).log =
          [Event.runRet r, Event.connectRet none (some ErrConnectFailed)] ∧
        Event.ctxDone ∉ (exec env (init flag) sched).log ∧
        (∀ c, Event.connClose Closer.run c ∉ (exec env (init flag) sched).log) ∧
        (flag = false →
          ∀ e ∈ (exec env (init flag) sched).log, Event.isConnClose e = false)) ∨
      (∃ w, w < env.hosts.length ∧ Event.cas w true ∈ (exec env (init flag) sched).log ∧
        r = env.closeErr (connOf env w) ∧
        runTrace (exec env (init flag) sched).log =
          [Event.runRet r, Event.connClose Closer.run (connOf env w), Event.ctxDone,
            Event.connectRet (some (connOf env w)) none] ∧
        (exec env (init flag) sched).log.filter (Event.closes (connOf env w)) =
          [Event.connClose Closer.run (connOf env w)] ∧
        (∀ post pre c,
          (exec env (init flag) sched).log = post ++ Event.connClose Closer.run c :: pre →
          Event.cancel ∈ pre))) := by
  refine ⟨run_returns env flag, ?_, ?_⟩
  · intro s conn e hpc
    simp [stepMain, hpc]
  obtain ⟨hinv, hord⟩ := exec_inv env flag sched
  generalize exec env (init flag) sched = s at hret hinv hord
  have hm := hinv.main
  rw [hret] at hm
  have hc : s.chClosed = true := by rw [hinv.closed, hret]; rfl
  rcases hm with ⟨h1, h2, h3⟩ | ⟨c, h1, h2, -, h4⟩
  · left
    have hnow : ∀ i, Event.cas i true ∉ s.log := by
      rcases hinv.lastConn_spec hc with ⟨h, -⟩ | ⟨w, -, -, h⟩
      · exact h
      · rw [h1] at h; simp at h
    have hnorun : ∀ e, e ∈ s.log → Event.isRun e = true → e ∈ runTrace s.log :=
      fun e hin he => List.mem_filter.mpr ⟨hin, he⟩
    refine ⟨h2, hnow, h3, ?_, ?_, ?_⟩
    · intro hin
      have := hnorun _ hin rfl
      rw [h3] at this
      simp at this
    · intro d hin
      have := hnorun _ hin rfl
      rw [h3] at this
      simp at this
    · intro hflag e he
      cases e <;> simp only [Event.isConnClose]
      rename_i who d
      cases who with
      | routine i =>
        have hl := (hinv.close_facts he).2
        rcases hinv.setBy (hinv.casSets i false hl) with hf | ⟨x, hx⟩
        · rw [hflag] at hf; simp at hf
        · exact absurd hx (hnow x)
      | run =>
        have := hnorun _ he rfl
        rw [h3] at this
        simp at this
  · right
    rcases hinv.lastConn_spec hc with ⟨-, h⟩ | ⟨w, hw, hcas, h⟩
    · rw [h1] at h; simp at h
    · have hcw : c = connOf env w := by
        rw [h1] at h
        simpa using h
      subst hcw
      refine ⟨w, hw, hcas, h2, h4, ?_, hord.closeAfterCancel⟩
      rw [filter_runTrace (Event.closes (connOf env w)) s.log, h4]
      · simp [Event.closes, List.filter_cons]
      · intro e he hp
        cases e <;> simp [Event.closes] at hp
        rename_i who d
        subst hp
        cases who with
        | routine i =>
          exfalso
          obtain ⟨hid, hl⟩ := hinv.close_facts he
          have hiw : i = w := by
            have := congrArg Conn.id hid
            simp [connOf] at this
            exact this.symm
          subst hiw
          exact (hinv.won_facts hcas).2.1 hl
        | run => rfl

theorem run_returns_connect_error_or_close_result_witness :
    (exec envNoneUp (init false) schedNoneUp).mainPc = MainPC.runRet (some ErrConnectFailed) ∧
      Event.cancel ∉ (exec envNoneUp (init false) schedNoneUp).log ∧
      RunReturns envNoneUp false ∧
      (∀ s conn e, s.mainPc = MainPC.retConnect conn (some e) →
        stepMain envNoneUp s = some { s with mainPc := MainPC.runRet (some e),
                                               log := Event.runRet (some e) :: s.log }) ∧
      ((some ErrConnectFailed = some ErrConnectFailed ∧
          (∀ i, Event.cas i true ∉ (exec envNoneUp (init false) schedNoneUp).log) ∧
          runTrace (exec envNoneUp (init false) schedNoneUp).log =
            [Event.runRet (some ErrConnectFailed),
              Event.connectRet none (some ErrConnectFailed)] ∧
          Event.ctxDone ∉ (exec envNoneUp (init false) schedNoneUp).log ∧
          (∀ c, Event.connClose Closer.run c ∉ (exec envNoneUp (init false) schedNoneUp).log) ∧
          (false = false →
            ∀ e ∈ (exec envNoneUp (init false) schedNoneUp).log,
              Event.isConnClose e = false)) ∨
        (∃ w, w < envNoneUp.hosts.length ∧
          Event.cas w true ∈ (exec envNoneUp (init false) schedNoneUp).log ∧
          some ErrConnectFailed = envNoneUp.closeErr (connOf envNoneUp w) ∧
          runTrace (exec envNoneUp (init false) schedNoneUp).log =
            [Event.runRet (some ErrConnectFailed),
              Event.connClose Closer.run (connOf envNoneUp w), Event.ctxDone,
              Event.connectRet (some (connOf envNoneUp w)) none] ∧
          (exec envNoneUp (init false) schedNoneUp).log.filter
              (Event.closes (connOf envNoneUp w)) =
            [Event.connClose Closer.run (connOf envNoneUp w)] ∧
          (∀ post pre c,
            (exec envNoneUp (init false) schedNoneUp).log =
              post ++ Event.connClose Closer.run c :: pre →
            Event.cancel ∈ pre))) :=
  ⟨by decide, by decide,
    run_returns_connect_error_or_close_result envNoneUp false schedNoneUp _ (by decide)⟩

/-! ## C9: the relay -/

/-- The copy loops an attempt has started are a final part of the two of lines 97-98. -/
theorem Inv.pipes_of {env : Env} {flag : Bool} {s : State} (hinv : Inv env flag s) (i : Nat) :
    ((traceOf i s.log).filter Event.isPipe).length ≤ 2 ∧
      (Event.cas i true ∉ s.log → (traceOf i s.log).filter Event.isPipe = []) := by
  have hr := hinv.routine i
  have hin : Event.cas i true ∈ traceOf i s.log → Event.cas i true ∈ s.log :=
    mem_of_mem_traceOf
  cases hpc : s.routines i <;> rw [hpc] at hr <;>
    simp only [RoutineInv, wonTrace, lostTrace, failTrace] at hr
  case done =>
    rcases hr with ⟨e, -, h2⟩ | ⟨-, h2⟩ | ⟨-, h2⟩ <;> rw [h2] at hin ⊢ <;>
      simp [List.filter_cons, Event.isPipe] at hin ⊢
    exact hin
  case idle => rw [hr]; simp
  case start => rw [hr]; simp
  case dialErr e => rw [hr.2]; simp [List.filter_cons, Event.isPipe]
  case lostSend => rw [hr.2]; simp [List.filter_cons, Event.isPipe]
  all_goals
    rw [hr.2.2] at hin ⊢
    simp [List.filter_cons, Event.isPipe] at hin ⊢
  all_goals (try exact hin)

/-- C9. For every state of the flag, in every interleaving: the race terminates; a copy
loop is started only by an attempt that won the compare-and-swap, and it is one of the two
of lines 97-98; an attempt that has won can always move on until it has returned, unless
it waits for room in the channel; every run in which an attempt has won can be completed
to one in which `connect` has returned, and once `connect` has returned the effects of the
winner are, in order, the dial, the compare-and-swap, the print, `go pipe(conn, os.Stdin)`,
`go pipe(os.Stdout, conn)` and only then the send of `{conn, nil}` (the same holds as soon
as the winner itself has returned); an attempt that has not won has started no copy loop;
at most two copy loops are ever started, and once `connect` has returned there are none
if no attempt won and exactly the two of the winner otherwise. -/
theorem relay_started_by_winner_only (env : Env) (flag : Bool) (sched : List Action) :
    ConnectReturns env flag ∧
    (∀ i dst src, Event.pipe i dst src ∈ (exec env (init flag) sched).log →
      Event.cas i true ∈ (exec env (init flag) sched).log ∧
      ((dst = Stream.conn (connOf env i) ∧ src = Stream.stdin) ∨
        (dst = Stream.stdout ∧ src = Stream.conn (connOf env i)))) ∧
    (∀ i, Event.cas i true ∈ (exec env (init flag) sched).log →
      (exec env (init flag) sched).routines i ≠ RoutinePC.done →
      (exec env (init flag) sched).buf = none →
      (stepRoutine env (exec env (init flag) sched) i).isSome = true) ∧
    (∀ i, Event.cas i true ∈ (exec env (init flag) sched).log →
      ∃ more, Action.cancel ∉ more ∧
        connectReturned (exec env (init flag) (sched ++ more)).mainPc = true ∧
        traceOf i (exec env (init flag) (sched ++ more)).log =
          [Event.send i ⟨some (connOf env i), none⟩,
           Event.pipe i Stream.stdout (Stream.conn (connOf env i)),
           Event.pipe i (Stream.conn (connOf env i)) Stream.stdin,
           Event.print i ("Connected to " ++ hostAt env i ++ "\n"),
           Event.cas i true,
           Event.dial i (addrOf env i) true] ∧
        (exec env (init flag) (sched ++ more)).log.filter Event.isPipe =
          [Event.pipe i Stream.stdout (Stream.conn (connOf env i)),
           Event.pipe i (Stream.conn (connOf env i)) Stream.stdin]) ∧
    (∀ i, Event.cas i true ∈ (exec env (init flag) sched).log →
      ((exec env (init flag) sched).routines i = RoutinePC.done ∨
        connectReturned (exec env (init flag) sched).mainPc = true) →
      traceOf i (exec env (init flag) sched).log =
        [Event.send i ⟨some (connOf env i), none⟩,
         Event.pipe i Stream.stdout (Stream.conn (connOf env i)),
         Event.pipe i (Stream.conn (connOf env i)) Stream.stdin,
         Event.print i ("Connected to " ++ hostAt env i ++ "\n"),
         Event.cas i true,
         Event.dial i (addrOf env i) true]) ∧
    (∀ i, Event.cas i true ∉ (exec env (init flag) sched).log →
      (traceOf i (exec env (init flag) sched).log).filter Event.isPipe = []) ∧
    ((exec env (init flag) sched).log.filter Event.isPipe).length ≤ 2 ∧
    (connectReturned (exec env (init flag) sched).mainPc = true →
      ((∀ i, Event.cas i true ∉ (exec env (init flag) sched).log) ∧
        (exec env (init flag) sched).log.filter Event.isPipe = []) ∨
      (∃ w, Event.cas w true ∈ (exec env (init flag) sched).log ∧
        (exec env (init flag) sched).log.filter Event.isPipe =
          [Event.pipe w Stream.stdout (Stream.conn (connOf env w)),
           Event.pipe w (Stream.conn (connOf env w)) Stream.stdin])) := by
  have hpast : ∀ pc, connectReturned pc = true → pastClose pc = true := by
    intro pc h
    cases pc <;> simp [connectReturned, pastClose] at h ⊢
  have hfacts : ∀ s, Inv env flag s →
      (∀ w, Event.cas w true ∈ s.log →
        s.log.filter Event.isPipe = (traceOf w s.log).filter Event.isPipe) ∧
      ((∀ i, Event.cas i true ∉ s.log) → s.log.filter Event.isPipe = []) ∧
      (∀ i, Event.cas i true ∈ s.log →
        (s.routines i = RoutinePC.done ∨ connectReturned s.mainPc = true) →
        traceOf i s.log = Event.send i ⟨some (connOf env i), none⟩ :: wonTrace env i) := by
    intro s hinv
    refine ⟨?_, ?_, ?_⟩
    · intro w hw
      apply filter_traceOf
      intro e he hp
      cases e <;> simp [Event.isPipe] at hp
      rename_i i dst src
      simp [Event.byRoutine, hinv.winUnique i w (hinv.pipe_facts he).1 hw]
    · intro hno
      rw [List.filter_eq_nil_iff]
      intro e he
      cases e <;> simp [Event.isPipe]
      rename_i i dst src
      exact hno i (hinv.pipe_facts he).1
    · intro i hi hor
      apply (hinv.won_facts hi).2.2.2
      rcases hor with hd | hret
      · exact hd
      · have hc : s.chClosed = true := by rw [hinv.closed]; exact hpast _ hret
        exact (hinv.after_close hc).2.2.2.1 i (hinv.winner_lt hi)
  refine ⟨connect_returns env flag, ?_⟩
  have hinv := (exec_inv env flag sched).1
  refine ⟨fun i dst src h => hinv.pipe_facts h, ?_, ?_, ?_⟩
  · intro i hi hnd hbuf
    refine stepRoutine_enabled hinv ?_ hnd hbuf
    intro hidle
    have hr := hinv.routine i
    rw [hidle] at hr
    have hmem : Event.cas i true ∈ traceOf i (exec env (init flag) sched).log :=
      mem_traceOf hi (by simp [Event.byRoutine])
    simp only [RoutineInv] at hr
    rw [hr] at hmem
    simp at hmem
  · intro i hi
    obtain ⟨more, hnc, hmore⟩ := can_return (measure env (exec env (init flag) sched))
      (exec env (init flag) sched) (Nat.le_refl _) hinv
    have hinv2 := (exec_inv env flag (sched ++ more)).1
    have hi2 : Event.cas i true ∈ (exec env (init flag) (sched ++ more)).log := by
      rw [exec_append]
      exact exec_log_mem more _ hi
    rw [← exec_append] at hmore
    obtain ⟨h1, -, h3⟩ := hfacts _ hinv2
    have htr := h3 i hi2 (Or.inr hmore)
    refine ⟨more, hnc, hmore, htr, ?_⟩
    rw [h1 i hi2, htr]
    simp [wonTrace, List.filter_cons, Event.isPipe]
  generalize exec env (init flag) sched = s at hinv
  obtain ⟨hwin, hnone, htrace⟩ := hfacts s hinv
  refine ⟨htrace, fun i => (hinv.pipes_of i).2, ?_, ?_⟩
  · by_cases hex : ∃ w, Event.cas w true ∈ s.log
    · obtain ⟨w, hw⟩ := hex
      rw [hwin w hw]
      exact (hinv.pipes_of w).1
    · push_neg at hex
      rw [hnone hex]
      simp
  · intro hret
    by_cases hex : ∃ w, Event.cas w true ∈ s.log
    · right
      obtain ⟨w, hw⟩ := hex
      refine ⟨w, hw, ?_⟩
      rw [hwin w hw, htrace w hw (Or.inr hret)]
      simp [wonTrace, List.filter_cons, Event.isPipe]
    · left
      push_neg at hex
      exact ⟨hex, hnone hex⟩

/-! ## C10: the flag is never reset -/

theorem step_keeps_flag {env : Env} {s s' : State} {a : Action} (h : step env s a = some s')
    (hc : s.connected = true) : s'.connected = true := by
  cases a with
  | main =>
    simp only [step] at h
    unfold stepMain at h
    split at h
    all_goals (try split at h)
    all_goals (try (simp at h))
    all_goals (try (subst h))
    all_goals (try exact hc)
  | routine i =>
    simp only [step] at h
    unfold stepRoutine at h
    simp only [sendResult] at h
    split at h
    all_goals (try split at h)
    all_goals (try split at h)
    all_goals (try (simp at h))
    all_goals (try (subst h))
    all_goals (try (simp [advance, hc]))
  | cancel =>
    simp only [step] at h
    unfold stepCancel at h
    split at h <;> simp at h
    subst h
    exact hc

/-- C10. No step ever changes the flag from true to false.  On a Runner whose flag is
already true, for every host list and every network behaviour, in every interleaving: the
race terminates, the flag stays true, no attempt wins the compare-and-swap, no copy loop
is started, and when `connect` returns it returns `(nil, ErrConnectFailed)` and every
attempt whose dial succeeded has closed its own connection. -/
theorem set_flag_makes_connect_fail (env : Env) (sched : List Action) :
    (∀ (s s' : State) (a : Action), step env s a = some s' → s.connected = true →
      s'.connected = true) ∧
    ConnectReturns env true ∧
    (exec env (init true) sched).connected = true ∧
    (∀ i, Event.cas i true ∉ (exec env (init true) sched).log) ∧
    (∀ e ∈ (exec env (init true) sched).log, Event.isPipe e = false) ∧
    (∀ conn err, (exec env (init true) sched).mainPc = MainPC.retConnect conn err →
      conn = none ∧ err = some ErrConnectFailed ∧
      ∀ i, i < env.hosts.length → env.dialErr i = none →
        Event.connClose (Closer.routine i) (connOf env i) ∈
          (exec env (init true) sched).log) := by
  refine ⟨fun s s' a h hc => step_keeps_flag h hc, connect_returns env true, ?_⟩
  have hinv := (exec_inv env true sched).1
  generalize exec env (init true) sched = s at hinv
  have hno : ∀ i, Event.cas i true ∉ s.log := by
    intro i hi
    have := hinv.winFresh i hi
    simp at this
  refine ⟨hinv.flagKept rfl, hno, ?_, ?_⟩
  · intro e he
    cases e <;> simp only [Event.isPipe]
    rename_i i dst src
    exact absurd (hinv.pipe_facts he).1 (hno i)
  · intro conn err hret
    have hc : s.chClosed = true := by rw [hinv.closed, hret]; rfl
    obtain ⟨-, -, -, hall, -⟩ := hinv.after_close hc
    rcases hinv.connect_spec hret with ⟨-, h1, h2⟩ | ⟨w, -, h1, -⟩
    · exact ⟨h1, h2, fun i hi hd => (hinv.done_lost (hall i hi) hd (hno i)).1⟩
    · exact absurd h1 (hno w)

/-! ## The claims on concrete sessions -/

theorem relay_started_by_winner_only_witness :
    Event.cas 1 true ∈ (exec envBothUp (init false) schedBothUp).log ∧
      connectReturned (exec envBothUp (init false) schedBothUp).mainPc = true ∧
      traceOf 1 (exec envBothUp (init false) schedBothUp).log =
        [Event.send 1 ⟨some (connOf envBothUp 1), none⟩,
         Event.pipe 1 Stream.stdout (Stream.conn (connOf envBothUp 1)),
         Event.pipe 1 (Stream.conn (connOf envBothUp 1)) Stream.stdin,
         Event.print 1 ("Connected to " ++ hostAt envBothUp 1 ++ "\n"),
         Event.cas 1 true,
         Event.dial 1 (addrOf envBothUp 1) true] ∧
      (exec envBothUp (init false) schedBothUp).log.filter Event.isPipe =
        [Event.pipe 1 Stream.stdout (Stream.conn ⟨1, "10.0.0.2:9999"⟩),
         Event.pipe 1 (Stream.conn ⟨1, "10.0.0.2:9999"⟩) Stream.stdin] ∧
      (traceOf 0 (exec envBothUp (init false) schedBothUp).log).filter Event.isPipe = [] :=
  ⟨by decide, by decide,
    (relay_started_by_winner_only envBothUp false schedBothUp).2.2.2.2.1 1 (by decide)
      (Or.inr (by decide)),
    by decide,
    (relay_started_by_winner_only envBothUp false schedBothUp).2.2.2.2.2.1 0 (by decide)⟩

theorem set_flag_makes_connect_fail_witness :
    (exec envBothUp (init true) schedFlagSet).mainPc =
        MainPC.retConnect none (some ErrConnectFailed) ∧
      ((none : Option Conn) = none ∧ some ErrConnectFailed = some ErrConnectFailed ∧
        ∀ i, i < envBothUp.hosts.length → envBothUp.dialErr i = none →
          Event.connClose (Closer.routine i) (connOf envBothUp i) ∈
            (exec envBothUp (init true) schedFlagSet).log) :=
  ⟨by decide,
    (set_flag_makes_connect_fail envBothUp schedFlagSet).2.2.2.2.2 _ _ (by decide)⟩

end NcBroker
